/-
Verification of the LogistiX logistics-network-design core against its
specification.

The Python sources (src/model.py, src/pre_clusterer.py, src/app.py) are
shallowly embedded below.  Python dicts become association lists, dict
accesses that can raise KeyError return `Except`, machine floats used for
demands/costs/bounds become `ℚ`, and the external libraries (gurobipy,
numpy, scikit-learn, geopy) are modelled by explicit data (linear
constraints as terms), documented semantics (np.argmax / np.argmin pick the
first extremal index; a numpy int array truncates toward zero), or oracle
parameters (the geodesic distance function, the solver's returned variable
values, the clustering labels).
-/
import Mathlib

namespace LogistiX

/-- Identifiers of plants, DCs, customers and products (Python str keys). -/
abbrev Ident := String

/-- Locations as (latitude, longitude); only ever consumed by the external
geodesic-distance oracle. -/
abbrev Loc := ℚ × ℚ

/-- Error outcomes of running the embedded Python code.  `keyError`,
`valueError` and `nameError` are the Python exceptions the code can raise
(`valueError` covers numpy's argmin/argmax on an empty array and the
scikit-learn fit call).  `invalidInput` is the error kind named by the
specification's error taxonomy; it is included so that statements about it
can be expressed. -/
inductive PyErr where
  | keyError : PyErr
  | valueError : PyErr
  | nameError : PyErr
  | invalidInput : PyErr
  deriving DecidableEq, Repr

/-- Python dict as an association list; `dlookup` is `d[k]`'s underlying
lookup (first matching key). -/
def dlookup {α β : Type} [DecidableEq α] : List (α × β) → α → Option β
  | [], _ => none
  | (a, b) :: rest, k => if a = k then some b else dlookup rest k

/-- Python `d[k]`: raises KeyError when the key is missing. -/
def pyGet {α β : Type} [DecidableEq α] (d : List (α × β)) (k : α) : Except PyErr β :=
  match dlookup d k with
  | some v => .ok v
  | none => .error .keyError

instance {ε α : Type} [DecidableEq ε] [DecidableEq α] : DecidableEq (Except ε α)
  | .error e1, .error e2 =>
    if h : e1 = e2 then isTrue (by rw [h]) else
      isFalse (by intro hc; cases hc; exact h rfl)
  | .error _, .ok _ => isFalse (by intro hc; cases hc)
  | .ok _, .error _ => isFalse (by intro hc; cases hc)
  | .ok a1, .ok a2 =>
    if h : a1 = a2 then isTrue (by rw [h]) else
      isFalse (by intro hc; cases hc; exact h rfl)

/-- The decision variables of the three MIP builders.  `x` is the
overloaded flow variable of `multiple_src` (plant→DC and DC→customer
triples share one dict); `xpd`/`xdc` are `multiple_src2`'s
`x_plant_to_dc`/`x_dc_to_customer`; `z`, `slack1` belong to `single_src`;
`slack2` is the per-(customer, product) slack of the multiple-source
builders; `y` is the DC-opening binary. -/
inductive Var where
  | x : Ident → Ident → Ident → Var
  | xpd : Ident → Ident → Ident → Var
  | xdc : Ident → Ident → Ident → Var
  | z : Ident → Ident → Var
  | y : Ident → Var
  | slack2 : Ident → Ident → Var
  | slack1 : Ident → Var
  deriving DecidableEq, Repr

/-- A linear expression: terms (coefficient, variable) plus a constant. -/
structure Affine where
  terms : List (ℚ × Var)
  const : ℚ
  deriving DecidableEq, Repr

/-- Comparison sense of a gurobipy constraint (`==`, `<=`, `>=`). -/
inductive Rel where
  | eq : Rel
  | le : Rel
  | ge : Rel
  deriving DecidableEq, Repr

/-- One linear constraint, as handed to `model.addConstr`. -/
structure Constr where
  cname : String
  lhs : Affine
  rel : Rel
  rhs : Affine
  deriving DecidableEq, Repr

/-- The data of a built gurobipy model: the constraints in the order they
were added, and the objective's terms. -/
structure MIPModel where
  constrs : List Constr
  objective : List (ℚ × Var)
  deriving DecidableEq, Repr

/-- Value of a linear expression under an assignment of the variables. -/
def evalAffine (a : Var → ℚ) (e : Affine) : ℚ :=
  (e.terms.map (fun t => t.1 * a t.2)).sum + e.const

/-- Satisfaction of one constraint under an assignment. -/
def satisfies (a : Var → ℚ) (c : Constr) : Prop :=
  match c.rel with
  | .eq => evalAffine a c.lhs = evalAffine a c.rhs
  | .le => evalAffine a c.lhs ≤ evalAffine a c.rhs
  | .ge => evalAffine a c.lhs ≥ evalAffine a c.rhs

/-- Coefficient of a variable in an objective term list (summing repeated
occurrences, as gurobipy does). -/
def coeffOf (obj : List (ℚ × Var)) (v : Var) : ℚ :=
  ((obj.filter fun t => decide (t.2 = v)).map Prod.fst).sum

/-- model.py line 66 (identical at lines 192 and 320):
`plnt_to_dc = set((i, j, p) for i in plnt for j in dc for p in prod
                  if plnt_ub.get((i, p), 0) > 0)`.
`dict.get` with default 0 is total, so a missing capacity entry behaves
as 0 and the arc is left out. -/
def plntToDc (plnt dc prod : List Ident) (plnt_ub : List ((Ident × Ident) × ℚ)) :
    List (Ident × Ident × Ident) :=
  plnt.flatMap fun i => dc.flatMap fun j => prod.filterMap fun p =>
    if 0 < (dlookup plnt_ub (i, p)).getD 0 then some (i, j, p) else none

/-- The triples enumerated by the generator at model.py line 67 before the
demand filter is applied, in generation order. -/
def allDcCust (dc cust prod : List Ident) : List (Ident × Ident × Ident) :=
  dc.flatMap fun j => cust.flatMap fun k => prod.map fun p => (j, k, p)

/-- The demand filter of model.py line 67: each candidate triple evaluates
`demand[k, p]`, raising KeyError at the first missing entry, and keeps the
triple when the demand is positive. -/
def filterByDemand (demand : List ((Ident × Ident) × ℚ)) :
    List (Ident × Ident × Ident) → Except PyErr (List (Ident × Ident × Ident))
  | [] => .ok []
  | (j, k, p) :: rest => do
    let v ← pyGet demand (k, p)
    let r ← filterByDemand demand rest
    if 0 < v then pure ((j, k, p) :: r) else pure r

/-- model.py line 67 (identical at lines 193 and 321):
`dc_to_cust = set((j, k, p) for j in dc for k in cust for p in prod
                  if demand[k, p] > 0)`. -/
def dcToCust (dc cust prod : List Ident) (demand : List ((Ident × Ident) × ℚ)) :
    Except PyErr (List (Ident × Ident × Ident)) :=
  filterByDemand demand (allDcCust dc cust prod)

/-- Constraint-name strings (the f-strings of the source), assembled by
concatenation. -/
def nm1 (base a : String) : String := base ++ "[" ++ a ++ "]"

/-- Two-argument constraint name. -/
def nm2 (base a b : String) : String := base ++ "[" ++ a ++ "," ++ b ++ "]"

/-- Three-argument constraint name. -/
def nm3 (base a b c : String) : String := base ++ "[" ++ a ++ "," ++ b ++ "," ++ c ++ "]"

/-- model.py lines 89-97: the customer-demand constraints of
`multiple_src`, iterating the (k, p) pairs of `cust × prod` in loop order.
The `slack[k, p]` dict access at line 93 is always in bounds: the lookup
`demand[k, p]` just succeeded with a positive value, so `(k, p)` received a
slack variable at lines 77-79. -/
def custDemandConsMS (dc : List Ident) (dtc : List (Ident × Ident × Ident))
    (demand : List ((Ident × Ident) × ℚ)) :
    List (Ident × Ident) → Except PyErr (List Constr)
  | [] => .ok []
  | (k, p) :: rest => do
    let d ← pyGet demand (k, p)
    let r ← custDemandConsMS dc dtc demand rest
    if 0 < d then
      pure ({ cname := nm2 "Cust_Demand_Cons" k p,
              lhs := ⟨((dc.filter fun j => decide ((j, k, p) ∈ dtc)).map fun j =>
                        ((1 : ℚ), Var.x j k p)) ++ [(1, Var.slack2 k p)], 0⟩,
              rel := .eq, rhs := ⟨[], d⟩ } :: r)
    else pure r

/-- model.py lines 102-107: the flow-conservation constraint of
`multiple_src` for one DC `j` and product `p`. -/
def mkFlowConsMS (plnt cust : List Ident) (ptd dtc : List (Ident × Ident × Ident))
    (j p : Ident) : Constr :=
  { cname := nm2 "DC_Flow_Cons" j p,
    lhs := ⟨(plnt.filter fun i => decide ((i, j, p) ∈ ptd)).map fun i =>
              ((1 : ℚ), Var.x i j p), 0⟩,
    rel := .eq,
    rhs := ⟨(cust.filter fun k => decide ((j, k, p) ∈ dtc)).map fun k =>
              ((1 : ℚ), Var.x j k p), 0⟩ }

/-- model.py lines 100-107: the flow-conservation loop of `multiple_src`
(`for j in dc: for p in prod`). -/
def flowConsMS (plnt cust dc prod : List Ident)
    (ptd dtc : List (Ident × Ident × Ident)) : List Constr :=
  dc.flatMap fun j => prod.map fun p => mkFlowConsMS plnt cust ptd dtc j p

/-- model.py lines 111-117: the strong activation constraints of
`multiple_src`, one per element of `dc_to_cust`. -/
def strongConsMS (demand : List ((Ident × Ident) × ℚ)) :
    List (Ident × Ident × Ident) → Except PyErr (List Constr)
  | [] => .ok []
  | (j, k, p) :: rest => do
    let d ← pyGet demand (k, p)
    let r ← strongConsMS demand rest
    pure ({ cname := nm3 "DC_Strong_Cons" j k p,
            lhs := ⟨[(1, Var.x j k p)], 0⟩, rel := .le,
            rhs := ⟨[(d, Var.y j)], 0⟩ } :: r)

/-- model.py lines 121-126: the DC throughput upper-bound constraint for
one DC `j` (the inner generator runs `for i in plnt for p in prod` guarded
by membership in `plnt_to_dc`). -/
def mkDCUBConsMS (plnt prod : List Ident) (ptd : List (Ident × Ident × Ident))
    (dc_ub : Ident → ℚ) (j : Ident) : Constr :=
  { cname := nm1 "DC_UB_Cons" j,
    lhs := ⟨[(dc_ub j, Var.y j)], 0⟩, rel := .ge,
    rhs := ⟨plnt.flatMap fun i => prod.filterMap fun p =>
              if (i, j, p) ∈ ptd then some ((1 : ℚ), Var.x i j p) else none, 0⟩ }

/-- model.py lines 129-136: plant-capacity constraints; `plnt_ub[i, p]` is
a bare dict access, so a missing entry raises KeyError here. -/
def plntUBCons (dc : List Ident) (ptd : List (Ident × Ident × Ident))
    (plnt_ub : List ((Ident × Ident) × ℚ)) :
    List (Ident × Ident) → Except PyErr (List Constr)
  | [] => .ok []
  | (i, p) :: rest => do
    let ub ← pyGet plnt_ub (i, p)
    let r ← plntUBCons dc ptd plnt_ub rest
    pure ({ cname := nm2 "Plnt_UB_Cons" i p,
            lhs := ⟨[], ub⟩, rel := .ge,
            rhs := ⟨(dc.filter fun j => decide ((i, j, p) ∈ ptd)).map fun j =>
                      ((1 : ℚ), Var.x i j p), 0⟩ } :: r)

/-- model.py lines 139-144: cardinality bound on opened DCs. -/
def mkNumCons (dc : List Ident) (dc_num : ℚ) : Constr :=
  { cname := "DC_Num_Cons",
    lhs := ⟨dc.map fun j => ((1 : ℚ), Var.y j), 0⟩, rel := .le, rhs := ⟨[], dc_num⟩ }

/-- `weight[p]`: `p` only ever ranges over `weight`'s own keys, so the
dict access always succeeds and the total `getD` form is extensionally the
Python access. -/
def wt (weight : List (Ident × ℚ)) (p : Ident) : ℚ := (dlookup weight p).getD 0

/-- `demand[k, p] > 0.` as used in the objective (line 154): by the time
the objective is built, the same lookups already succeeded at lines 89-97
(or at line 67), so the total `getD` form is extensionally the dict
access. -/
def demandPosB (demand : List ((Ident × Ident) × ℚ)) (k p : Ident) : Bool :=
  decide (0 < (dlookup demand (k, p)).getD 0)

/-- model.py lines 148-155: the objective of `multiple_src`, term by term
in source order; the slack penalty coefficient is the literal `999999`. -/
def objectiveMS (weight : List (Ident × ℚ)) (cust dc prod : List Ident)
    (ptd dtc : List (Ident × Ident × Ident)) (tp_cost del_cost : Ident → Ident → ℚ)
    (dc_fc dc_vc : Ident → ℚ) (demand : List ((Ident × Ident) × ℚ)) : List (ℚ × Var) :=
  (ptd.map fun t => (wt weight t.2.2 * tp_cost t.1 t.2.1, Var.x t.1 t.2.1 t.2.2))
  ++ (dtc.map fun t => (wt weight t.2.2 * del_cost t.1 t.2.1, Var.x t.1 t.2.1 t.2.2))
  ++ (dc.map fun j => (dc_fc j, Var.y j))
  ++ (ptd.map fun t => (dc_vc t.2.1, Var.x t.1 t.2.1 t.2.2))
  ++ (cust.flatMap fun k => prod.filterMap fun p =>
        if demandPosB demand k p then some ((999999 : ℚ), Var.slack2 k p) else none)

/-- model.py lines 36-158: the multiple-source MIP builder.  Phases appear
in source order: arc sets, customer-demand constraints, flow conservation,
strong activation, DC and plant capacity bounds, cardinality, objective. -/
def multiple_src (weight : List (Ident × ℚ)) (cust dc : List Ident) (dc_ub : Ident → ℚ)
    (plnt : List Ident) (plnt_ub demand : List ((Ident × Ident) × ℚ))
    (tp_cost del_cost : Ident → Ident → ℚ) (dc_fc dc_vc : Ident → ℚ) (dc_num : ℚ) :
    Except PyErr MIPModel := do
  let prod := weight.map Prod.fst
  let ptd := plntToDc plnt dc prod plnt_ub
  let dtc ← dcToCust dc cust prod demand
  let cd ← custDemandConsMS dc dtc demand (cust.flatMap fun k => prod.map fun p => (k, p))
  let fl := flowConsMS plnt cust dc prod ptd dtc
  let st ← strongConsMS demand dtc
  let ub := dc.map (mkDCUBConsMS plnt prod ptd dc_ub)
  let pu ← plntUBCons dc ptd plnt_ub (plnt.flatMap fun i => prod.map fun p => (i, p))
  return { constrs := cd ++ fl ++ st ++ ub ++ pu ++ [mkNumCons dc dc_num],
           objective := objectiveMS weight cust dc prod ptd dtc tp_cost del_cost dc_fc dc_vc demand }

/-- model.py lines 216-221: the single-assignment constraints of
`single_src` (`Σ_j z[j,k] + slack[k] == 1`). -/
def custDemandConsSS (dc cust : List Ident) : List Constr :=
  cust.map fun k =>
    { cname := nm1 "Cust_Demand_Cons" k,
      lhs := ⟨(dc.map fun j => ((1 : ℚ), Var.z j k)) ++ [(1, Var.slack1 k)], 0⟩,
      rel := .eq, rhs := ⟨[], 1⟩ }

/-- model.py line 228: the right-hand side `Σ_k demand[k,p]·z[j,k]` of a
`single_src` flow constraint; each customer incurs a bare `demand[k, p]`
access. -/
def flowRhsSS (demand : List ((Ident × Ident) × ℚ)) (j p : Ident) :
    List Ident → Except PyErr (List (ℚ × Var))
  | [] => .ok []
  | k :: rest => do
    let d ← pyGet demand (k, p)
    let r ← flowRhsSS demand j p rest
    pure ((d, Var.z j k) :: r)

/-- model.py lines 223-230: the flow-conservation loop of `single_src`
over the (j, p) pairs of `dc × prod` in loop order. -/
def flowConsSS (plnt cust : List Ident) (ptd : List (Ident × Ident × Ident))
    (demand : List ((Ident × Ident) × ℚ)) :
    List (Ident × Ident) → Except PyErr (List Constr)
  | [] => .ok []
  | (j, p) :: rest => do
    let rhs ← flowRhsSS demand j p cust
    let r ← flowConsSS plnt cust ptd demand rest
    pure ({ cname := nm2 "DC_Flow_Cons" j p,
            lhs := ⟨(plnt.filter fun i => decide ((i, j, p) ∈ ptd)).map fun i =>
                      ((1 : ℚ), Var.x i j p), 0⟩,
            rel := .eq, rhs := ⟨rhs, 0⟩ } :: r)

/-- model.py lines 235-242: weak activation `z[j,k] ≤ y[j]`. -/
def strongConsSS (dc cust : List Ident) : List Constr :=
  dc.flatMap fun j => cust.map fun k =>
    { cname := nm2 "DC_Strong_Cons" j k,
      lhs := ⟨[(1, Var.z j k)], 0⟩, rel := .le, rhs := ⟨[(1, Var.y j)], 0⟩ }

/-- model.py lines 246-252: `single_src`'s DC upper-bound loop.  The
generator at line 250 reads the loop variable `p` left over from the flow
loop at line 224 (Python scoping): when `dc` is non-empty and `prod` is
empty no binding of `p` survives, so the access raises NameError;
otherwise `p` holds the last product. -/
def dcUBConsSS (plnt prod : List Ident) (ptd : List (Ident × Ident × Ident))
    (dc_ub : Ident → ℚ) (dc : List Ident) : Except PyErr (List Constr) :=
  match dc with
  | [] => .ok []
  | _ :: _ =>
    match prod.getLast? with
    | none => .error .nameError
    | some p =>
      .ok (dc.map fun j =>
        { cname := nm1 "DC_UB_Cons" j,
          lhs := ⟨[(dc_ub j, Var.y j)], 0⟩, rel := .ge,
          rhs := ⟨(plnt.filter fun i => decide ((i, j, p) ∈ ptd)).map fun i =>
                    ((1 : ℚ), Var.x i j p), 0⟩ })

/-- model.py line 275 (inner sum): `sum(demand[k,p] for p in prod)`. -/
def sumDemandOver (demand : List ((Ident × Ident) × ℚ)) (k : Ident) :
    List Ident → Except PyErr ℚ
  | [] => .ok 0
  | p :: rest => do
    let d ← pyGet demand (k, p)
    let r ← sumDemandOver demand k rest
    pure (d + r)

/-- model.py line 275: `total_demand = {k: sum(demand[k,p] for p in prod)
for k in cust}`. -/
def totalDemandSS (demand : List ((Ident × Ident) × ℚ)) (prod : List Ident) :
    List Ident → Except PyErr (List (Ident × ℚ))
  | [] => .ok []
  | k :: rest => do
    let s ← sumDemandOver demand k prod
    let r ← totalDemandSS demand prod rest
    pure ((k, s) :: r)

/-- The value bound to the name `p` when `single_src`'s objective at line
280 reads it (Python scoping): the last binding among the statement-level
loops at lines 198, 224 and 257 that actually ran; `none` when all of them
were skipped, in which case evaluating `weight[p]` raises NameError. -/
def pObjSS (plnt dc prod : List Ident) : Option Ident :=
  if prod ≠ [] ∧ (plnt ≠ [] ∨ dc ≠ []) then prod.getLast? else none

/-- model.py lines 278-284: the objective of `single_src`.  The delivery
term multiplies every `z[j,k]` by `weight[p]` for the single leaked `p`
(see `pObjSS`); the slack penalty is the literal `99999999`. -/
def objectiveSS (weight : List (Ident × ℚ)) (cust dc prod plnt : List Ident)
    (ptd : List (Ident × Ident × Ident)) (tp_cost del_cost : Ident → Ident → ℚ)
    (dc_fc dc_vc : Ident → ℚ) (td : List (Ident × ℚ)) :
    Except PyErr (List (ℚ × Var)) := do
  let delTerms ←
    if dc = [] ∨ cust = [] then pure []
    else
      match pObjSS plnt dc prod with
      | none => Except.error PyErr.nameError
      | some p =>
        pure (dc.flatMap fun j => cust.map fun k =>
          (wt weight p * del_cost j k * (dlookup td k).getD 0, Var.z j k))
  pure ((ptd.map fun t => (wt weight t.2.2 * tp_cost t.1 t.2.1, Var.x t.1 t.2.1 t.2.2))
    ++ delTerms
    ++ (dc.map fun j => (dc_fc j, Var.y j))
    ++ (ptd.map fun t => (dc_vc t.2.1, Var.x t.1 t.2.1 t.2.2))
    ++ (cust.map fun k => ((99999999 : ℚ), Var.slack1 k)))

/-- model.py lines 161-287: the single-source MIP builder.  Line 193
computes `dc_to_cust` (with its demand accesses) even though the rest of
the function never uses it. -/
def single_src (weight : List (Ident × ℚ)) (cust dc : List Ident) (dc_ub : Ident → ℚ)
    (plnt : List Ident) (plnt_ub demand : List ((Ident × Ident) × ℚ))
    (tp_cost del_cost : Ident → Ident → ℚ) (dc_fc dc_vc : Ident → ℚ) (dc_num : ℚ) :
    Except PyErr MIPModel := do
  let prod := weight.map Prod.fst
  let ptd := plntToDc plnt dc prod plnt_ub
  let _dtc ← dcToCust dc cust prod demand
  let cd := custDemandConsSS dc cust
  let fl ← flowConsSS plnt cust ptd demand (dc.flatMap fun j => prod.map fun p => (j, p))
  let st := strongConsSS dc cust
  let ub ← dcUBConsSS plnt prod ptd dc_ub dc
  let pu ← plntUBCons dc ptd plnt_ub (plnt.flatMap fun i => prod.map fun p => (i, p))
  let td ← totalDemandSS demand prod cust
  let obj ← objectiveSS weight cust dc prod plnt ptd tp_cost del_cost dc_fc dc_vc td
  return { constrs := cd ++ fl ++ st ++ ub ++ pu ++ [mkNumCons dc dc_num],
           objective := obj }

/-- A sequence of accesses into a gurobipy variable dict keyed by triples
(`x_plant_to_dc` / `x_dc_to_customer` in `multiple_src2`): each access
raises KeyError unless the triple is a key. -/
def tripleAccess (keys : List (Ident × Ident × Ident)) (mk : Ident → Ident → Ident → Var) :
    List (Ident × Ident × Ident) → Except PyErr (List (ℚ × Var))
  | [] => .ok []
  | (a, b, c) :: rest =>
    if (a, b, c) ∈ keys then do
      let r ← tripleAccess keys mk rest
      pure (((1 : ℚ), mk a b c) :: r)
    else .error .keyError

/-- model.py lines 351-359: the customer-demand constraints of
`multiple_src2`.  The access `x_dc_to_customer[j,k,p]` at line 355 is in
bounds for every `j ∈ dc` because `demand[k,p] > 0` puts all those triples
into `dc_to_cust`. -/
def custDemandConsMS2 (dc : List Ident) (demand : List ((Ident × Ident) × ℚ)) :
    List (Ident × Ident) → Except PyErr (List Constr)
  | [] => .ok []
  | (k, p) :: rest => do
    let d ← pyGet demand (k, p)
    let r ← custDemandConsMS2 dc demand rest
    if 0 < d then
      pure ({ cname := nm2 "Cust_Demand_Cons" k p,
              lhs := ⟨(dc.map fun j => ((1 : ℚ), Var.xdc j k p)) ++ [(1, Var.slack2 k p)], 0⟩,
              rel := .eq, rhs := ⟨[], d⟩ } :: r)
    else pure r

/-- The right-hand side at model.py line 368:
`quicksum(x_plant_to_dc[i, k, p] for k in cust)` where `i` is `iLast`.
With no customers the generator body never runs (so no name lookup); with
customers and `iLast` unbound (the line-327 loop never ran) it raises
NameError; otherwise each access is guarded only by the dict itself. -/
def ms2FlowRhs (ptd : List (Ident × Ident × Ident)) (iLast : Option Ident)
    (cust : List Ident) (p : Ident) : Except PyErr (List (ℚ × Var)) :=
  match iLast, cust with
  | _, [] => pure []
  | none, _ :: _ => Except.error PyErr.nameError
  | some i, _ => tripleAccess ptd Var.xpd (cust.map fun k => (i, k, p))

/-- model.py lines 362-370: the flow-conservation loop of `multiple_src2`
over the (j, p) pairs of `dc × prod`.  The left-hand side adds
`Σ_i x_plant_to_dc[i,j,p]` (unguarded) and `Σ_k x_dc_to_customer[j,k,p]`
(unguarded); the right-hand side reads `x_plant_to_dc[i, k, p]` where `i`
is the variable left over from the loop at line 327 (`iLast`, the last
element of `plnt_to_dc`; NameError when that loop never ran and `cust` is
non-empty). -/
def ms2FlowCons (plnt cust : List Ident) (ptd dtc : List (Ident × Ident × Ident))
    (iLast : Option Ident) : List (Ident × Ident) → Except PyErr (List Constr)
  | [] => .ok []
  | (j, p) :: rest => do
    let l1 ← tripleAccess ptd Var.xpd (plnt.map fun i => (i, j, p))
    let l2 ← tripleAccess dtc Var.xdc (cust.map fun k => (j, k, p))
    let rhs ← ms2FlowRhs ptd iLast cust p
    let r ← ms2FlowCons plnt cust ptd dtc iLast rest
    pure ({ cname := nm2 "DC_Flow_Cons" j p,
            lhs := ⟨l1 ++ l2, 0⟩, rel := .eq, rhs := ⟨rhs, 0⟩ } :: r)

/-- model.py lines 373-379: strong activation of `multiple_src2`
(`x_dc_to_customer[j,k,p] ≤ demand[k,p]·y[j]`). -/
def strongConsMS2 (demand : List ((Ident × Ident) × ℚ)) :
    List (Ident × Ident × Ident) → Except PyErr (List Constr)
  | [] => .ok []
  | (j, k, p) :: rest => do
    let d ← pyGet demand (k, p)
    let r ← strongConsMS2 demand rest
    pure ({ cname := nm3 "DC_Strong_Cons" j k p,
            lhs := ⟨[(1, Var.xdc j k p)], 0⟩, rel := .le,
            rhs := ⟨[(d, Var.y j)], 0⟩ } :: r)

/-- model.py lines 382-388: `multiple_src2`'s DC upper bound; the inner
generator accesses `x_plant_to_dc[i,j,p]` for every `i ∈ plnt, p ∈ prod`
without a membership guard, so any pair outside `plnt_to_dc` raises
KeyError. -/
def dcUBConsMS2 (plnt prod : List Ident) (ptd : List (Ident × Ident × Ident))
    (dc_ub : Ident → ℚ) : List Ident → Except PyErr (List Constr)
  | [] => .ok []
  | j :: rest => do
    let rhs ← tripleAccess ptd Var.xpd (plnt.flatMap fun i => prod.map fun p => (i, j, p))
    let r ← dcUBConsMS2 plnt prod ptd dc_ub rest
    pure ({ cname := nm1 "DC_UB_Cons" j,
            lhs := ⟨[(dc_ub j, Var.y j)], 0⟩, rel := .ge, rhs := ⟨rhs, 0⟩ } :: r)

/-- model.py lines 391-398: `multiple_src2`'s plant-capacity constraints
(same shape as `plntUBCons` but over `x_plant_to_dc`). -/
def plntUBConsMS2 (dc : List Ident) (ptd : List (Ident × Ident × Ident))
    (plnt_ub : List ((Ident × Ident) × ℚ)) :
    List (Ident × Ident) → Except PyErr (List Constr)
  | [] => .ok []
  | (i, p) :: rest => do
    let ub ← pyGet plnt_ub (i, p)
    let r ← plntUBConsMS2 dc ptd plnt_ub rest
    pure ({ cname := nm2 "Plnt_UB_Cons" i p,
            lhs := ⟨[], ub⟩, rel := .ge,
            rhs := ⟨(dc.filter fun j => decide ((i, j, p) ∈ ptd)).map fun j =>
                      ((1 : ℚ), Var.xpd i j p), 0⟩ } :: r)

/-- model.py lines 410-416: the objective of `multiple_src2` (same terms
as `multiple_src` over the split variables; slack coefficient 999999). -/
def objectiveMS2 (weight : List (Ident × ℚ)) (cust dc prod : List Ident)
    (ptd dtc : List (Ident × Ident × Ident)) (tp_cost del_cost : Ident → Ident → ℚ)
    (dc_fc dc_vc : Ident → ℚ) (demand : List ((Ident × Ident) × ℚ)) : List (ℚ × Var) :=
  (ptd.map fun t => (wt weight t.2.2 * tp_cost t.1 t.2.1, Var.xpd t.1 t.2.1 t.2.2))
  ++ (dtc.map fun t => (wt weight t.2.2 * del_cost t.1 t.2.1, Var.xdc t.1 t.2.1 t.2.2))
  ++ (dc.map fun j => (dc_fc j, Var.y j))
  ++ (ptd.map fun t => (dc_vc t.2.1, Var.xpd t.1 t.2.1 t.2.2))
  ++ (cust.flatMap fun k => prod.filterMap fun p =>
        if demandPosB demand k p then some ((999999 : ℚ), Var.slack2 k p) else none)

/-- model.py lines 290-420: the second builder named "multiple source".
`iLast` is the first component of the last element of `plnt_to_dc`, the
value the loop variable `i` of line 327 retains when the flow loop reads
it at line 368. -/
def multiple_src2 (weight : List (Ident × ℚ)) (cust dc : List Ident) (dc_ub : Ident → ℚ)
    (plnt : List Ident) (plnt_ub demand : List ((Ident × Ident) × ℚ))
    (tp_cost del_cost : Ident → Ident → ℚ) (dc_fc dc_vc : Ident → ℚ) (dc_num : ℚ) :
    Except PyErr MIPModel := do
  let prod := weight.map Prod.fst
  let ptd := plntToDc plnt dc prod plnt_ub
  let dtc ← dcToCust dc cust prod demand
  let iLast := (ptd.getLast?).map fun t => t.1
  let cd ← custDemandConsMS2 dc demand (cust.flatMap fun k => prod.map fun p => (k, p))
  let fl ← ms2FlowCons plnt cust ptd dtc iLast (dc.flatMap fun j => prod.map fun p => (j, p))
  let st ← strongConsMS2 demand dtc
  let ub ← dcUBConsMS2 plnt prod ptd dc_ub dc
  let pu ← plntUBConsMS2 dc ptd plnt_ub (plnt.flatMap fun i => prod.map fun p => (i, p))
  return { constrs := cd ++ fl ++ st ++ ub ++ pu ++ [mkNumCons dc dc_num],
           objective := objectiveMS2 weight cust dc prod ptd dtc tp_cost del_cost dc_fc dc_vc demand }

/-- Common type of the three MIP builders (the Python call signature
`(weight, cust, dc, dc_ub, plnt, plnt_ub, demand, tp_cost, del_cost,
dc_fc, dc_vc, dc_num)`). -/
abbrev Builder :=
  List (Ident × ℚ) → List Ident → List Ident → (Ident → ℚ) → List Ident →
  List ((Ident × Ident) × ℚ) → List ((Ident × Ident) × ℚ) →
  (Ident → Ident → ℚ) → (Ident → Ident → ℚ) → (Ident → ℚ) → (Ident → ℚ) → ℚ →
  Except PyErr MIPModel

/-- app.py lines 80-83: the model table of `solve`, in insertion order. -/
def modelsTable : List (String × Builder) :=
  [("multiple source", multiple_src), ("single source", single_src)]

/-- app.py line 84: `k = list(models.keys())[0]`. -/
def solveKey : String := (modelsTable.map Prod.fst).headD ""

/-- app.py lines 76-100: the solver driver.  The external gurobipy
`optimize` call is abstracted by the oracle `sol`, the variable values the
solver reports (`y[i].X` is `sol (Var.y i)`).  The `modelArg` parameter is
the Python keyword argument `model`, which line 89 shadows with
`models[k](...)` before it is ever read; `_dc_lb`, `_dcMap` and `_names`
are the unpacked but unused fields of `data`.  The result models the pair
of the opened-DC list of line 98 and the built model (the `x, y` handles
of line 96 are the variables of that model). -/
def solve (weight : List (Ident × ℚ)) (cust : List Ident) (plnt : List Ident)
    (_dcMap : List Ident) (_dc_lb : Ident → ℚ) (dc_ub : Ident → ℚ)
    (demand plnt_ub : List ((Ident × Ident) × ℚ)) (_names : List (Ident × String))
    (tp_cost del_cost : Ident → Ident → ℚ) (dc_fc dc_vc : Ident → ℚ)
    (cluster_dc : List Ident) (dc_num : ℚ) (modelArg : String) (sol : Var → ℚ) :
    Except PyErr (List Ident × MIPModel) := do
  let builder ←
    match dlookup modelsTable solveKey with
    | some b => pure b
    | none => Except.error PyErr.keyError
  let m ← builder weight cust cluster_dc dc_ub plnt plnt_ub demand
            tp_cost del_cost dc_fc dc_vc dc_num
  return (cluster_dc.filter fun i => decide ((1 : ℚ) / 2 < sol (Var.y i)), m)

/-- Truncation toward zero, the semantics of storing a float into a numpy
integer array (C cast). -/
def npIntCast (q : ℚ) : ℤ := if 0 ≤ q then ⌊q⌋ else ⌈q⌉

/-- `dc[key_dc[i]]`: dict keys are unique, so looking the i-th key back up
in the dict yields the i-th value. -/
def dcLocAt (dcL : List (Ident × Loc)) (i : ℕ) : Loc := (dcL.getD i ("", (0, 0))).2

/-- pre_clusterer.py lines 38-43: the integer inter-DC distance matrix,
built by the double loop `for i in range(n): for j in range(i, n):
d[i,j] = distance(..) + 0.5; d[j,i] = d[i,j]` over a numpy int array.
`km` is the external geopy great-circle distance oracle. -/
def mkDistMatrix (km : Loc → Loc → ℚ) (dcL : List (Ident × Loc)) : ℕ × ℕ → ℤ :=
  let n := dcL.length
  (List.range n).foldl
    (fun d i =>
      (List.range' i (n - i)).foldl
        (fun e j =>
          let v := npIntCast (km (dcLocAt dcL i) (dcLocAt dcL j) + 1 / 2)
          Function.update (Function.update e (i, j) v) (j, i) v)
        d)
    (fun _ => 0)

/-- np.argmin: the index of the first occurrence of the minimum value;
ValueError on an empty array.  Modelled from the numpy documentation (the
call is external). -/
def npArgmin (l : List ℤ) : Except PyErr ℕ :=
  match l.min? with
  | none => .error .valueError
  | some m => .ok (l.indexOf m)

/-- np.argmax: the index of the first occurrence of the maximum value;
ValueError on an empty array.  Modelled from the numpy documentation (the
call is external). -/
def npArgmax (l : List ℤ) : Except PyErr ℕ :=
  match l.max? with
  | none => .error .valueError
  | some m => .ok (l.indexOf m)

/-- pre_clusterer.py lines 48-49: the nearest-DC index for one customer
location — `np.argmin` over the per-DC distances rounded into a numpy int
array. -/
def assignedDC (km : Loc → Loc → ℚ) (dcL : List (Ident × Loc)) (zl : Loc) :
    Except PyErr ℕ :=
  npArgmin (dcL.map fun d => npIntCast (km zl d.2 + 1 / 2))

/-- pre_clusterer.py lines 46-50: the per-DC aggregated demand scores
(`dc_dem`), a numpy int array updated customer by customer with
`dc_dem[imin] += sum(demand[z, p] for p in prods)`. -/
def custScores (km : Loc → Loc → ℚ) (dcL : List (Ident × Loc)) (prods : List Ident)
    (demand : List ((Ident × Ident) × ℚ)) :
    List (Ident × Loc) → List ℤ → Except PyErr (List ℤ)
  | [], acc => .ok acc
  | (z, zl) :: rest, acc => do
    let imin ← assignedDC km dcL zl
    let s ← sumDemandOver demand z prods
    custScores km dcL prods demand rest
      (acc.set imin (npIntCast ((acc.getD imin 0 : ℚ) + s)))

/-- pre_clusterer.py lines 57-62: for each cluster label `i`, collect the
member indices (`np.where(labels == i)`), take `np.argmax` of their
scores (ValueError when the cluster is empty), and keep the winning
index. -/
def clusterSelect (labels : List ℕ) (scores : List ℤ) :
    List ℕ → Except PyErr (List ℕ)
  | [] => .ok []
  | i :: rest => do
    let indices := (labels.enum.filter fun e => decide (e.2 = i)).map Prod.fst
    let dmax ← npArgmax (indices.map fun j => scores.getD j 0)
    let r ← clusterSelect labels scores rest
    pure (indices.getD dmax 0 :: r)

/-- pre_clusterer.py lines 23-64: the pre-clusterer.  `km` is the external
geopy distance oracle; `fitRes` is the outcome of the external
scikit-learn `AgglomerativeClustering(...).fit(d)` call — either its
`labels_` array or the error it raises.  The final `key_dc[i]` reads are
in bounds because every selected index comes from `range(len(labels_))`
and scikit-learn labels the `n_dc` samples. -/
def preclustering (cust dcL : List (Ident × Loc)) (prods : List Ident)
    (demand : List ((Ident × Ident) × ℚ)) (n_clusters : ℕ)
    (km : Loc → Loc → ℚ) (fitRes : Except PyErr (List ℕ)) : Except PyErr (List Ident) := do
  let key_dc := dcL.map Prod.fst
  let _d := mkDistMatrix km dcL
  let scores ← custScores km dcL prods demand cust (List.replicate dcL.length 0)
  let labels ← fitRes
  let sel ← clusterSelect labels scores (List.range n_clusters)
  return sel.map fun i => key_dc.getD i ""

/-- Following the spec's wording (§4.3 step 3): a customer's total demand
over all products, `Σ_p demand[k,p]`. -/
def totalDemandSpec (demand : List ((Ident × Ident) × ℚ)) (z : Ident)
    (prods : List Ident) : ℚ :=
  (prods.map fun p => (dlookup demand (z, p)).getD 0).sum

/-- Following the spec's wording (§4.3 step 3): the aggregated demand
score of the DC at index `a` — the sum of the total demands of the
customers whose nearest DC (by the rounded distances the code uses, first
occurrence on ties) is `a`. -/
def specScore (km : Loc → Loc → ℚ) (dcL : List (Ident × Loc)) (prods : List Ident)
    (demand : List ((Ident × Ident) × ℚ)) (cust : List (Ident × Loc)) (a : ℕ) : ℚ :=
  ((cust.filter fun c => decide (assignedDC km dcL c.2 = .ok a)).map
    fun c => totalDemandSpec demand c.1 prods).sum

/-! ### A small concrete instance (one plant, one DC, one customer, one
product with positive demand and positive plant capacity) -/

/-- Product weights of the concrete instance. -/
def weightI : List (Ident × ℚ) := [("Q1", 1)]

/-- Customers of the concrete instance. -/
def custI : List Ident := ["C1"]

/-- DCs of the concrete instance. -/
def dcI : List Ident := ["D1"]

/-- Plants of the concrete instance. -/
def plntI : List Ident := ["P1"]

/-- Demand of the concrete instance. -/
def demandI : List ((Ident × Ident) × ℚ) := [(("C1", "Q1"), 10)]

/-- Plant capacities of the concrete instance. -/
def plnt_ubI : List ((Ident × Ident) × ℚ) := [(("P1", "Q1"), 100)]

/-- DC capacity of the concrete instance. -/
def dcubI : Ident → ℚ := fun _ => 100

/-- A constant unit cost table. -/
def cost1 : Ident → Ident → ℚ := fun _ _ => 1

/-- DC fixed cost of the concrete instance. -/
def fcI : Ident → ℚ := fun _ => 1000

/-- DC variable cost of the concrete instance. -/
def vcI : Ident → ℚ := fun _ => 1

/-- The model `multiple_src` builds on the concrete instance. -/
def mI : MIPModel :=
  (multiple_src weightI custI dcI dcubI plntI plnt_ubI demandI cost1 cost1 fcI vcI
    1).toOption.getD ⟨[], []⟩


/-- A `plnt_to_dc` key set on which one `multiple_src2` flow row is fully
in bounds (the identifier "C" plays both the customer and a dc role in the
keys, as the unguarded accesses require). -/
def ptdX : List (Ident × Ident × Ident) := [("P", "D", "Q"), ("P", "C", "Q")]

/-- Matching `dc_to_cust` key set. -/
def dtcX : List (Ident × Ident × Ident) := [("D", "C", "Q")]

/-- The constraints one successful `multiple_src2` flow iteration builds
on those keys. -/
def csX : List Constr :=
  (ms2FlowCons ["P"] ["C"] ptdX dtcX (some "P") [("D", "Q")]).toOption.getD []

/-- The strong activation constraint of `multiple_src` for one arc, with
the demand coefficient written through the lookup (which succeeds for
every `dc_to_cust` arc). -/
def mkStrongConsMS (demand : List ((Ident × Ident) × ℚ)) (t : Ident × Ident × Ident) :
    Constr :=
  { cname := nm3 "DC_Strong_Cons" t.1 t.2.1 t.2.2,
    lhs := ⟨[(1, Var.x t.1 t.2.1 t.2.2)], 0⟩, rel := .le,
    rhs := ⟨[((dlookup demand (t.2.1, t.2.2)).getD 0, Var.y t.1)], 0⟩ }

/-- The variables a constraint mentions (terms of both sides). -/
def varsOf (c : Constr) : List Var := (c.lhs.terms ++ c.rhs.terms).map Prod.snd

/-- Whether a variable is a `multiple_src` flow variable on a
`dc_to_cust` arc. -/
def isDtcXVar (dtc : List (Ident × Ident × Ident)) : Var → Bool
  | Var.x a b c => decide ((a, b, c) ∈ dtc)
  | _ => false

/-- Whether a variable is a DC-opening variable `y`. -/
def isYVar : Var → Bool
  | Var.y _ => true
  | _ => false

/-- Whether a constraint mentions a flow variable on a `dc_to_cust` arc. -/
def mentionsDtcX (dtc : List (Ident × Ident × Ident)) (c : Constr) : Bool :=
  (varsOf c).any (isDtcXVar dtc)

/-- Whether a constraint mentions a DC-opening variable `y`. -/
def mentionsY (c : Constr) : Bool :=
  (varsOf c).any isYVar

/-- A DC-to-customer linking constraint: one that couples a DC-to-customer
flow variable with an opening variable. -/
def isLinkingB (dtc : List (Ident × Ident × Ident)) (c : Constr) : Bool :=
  mentionsDtcX dtc c && mentionsY c

/-- The model `multiple_src` builds when `solve` is run with the
candidate list ["B", "A"] on the concrete instance. -/
def mBA : MIPModel :=
  (multiple_src weightI custI ["B", "A"] dcubI plntI plnt_ubI demandI cost1 cost1
    fcI vcI 1).toOption.getD ⟨[], []⟩

/-! ### General lemmas about the embedded builders -/

theorem coeffOf_append (a b : List (ℚ × Var)) (v : Var) :
    coeffOf (a ++ b) v = coeffOf a v + coeffOf b v := by
  simp [coeffOf, List.filter_append]

theorem coeffOf_cons (t : ℚ × Var) (l : List (ℚ × Var)) (v : Var) :
    coeffOf (t :: l) v = (if t.2 = v then t.1 else 0) + coeffOf l v := by
  by_cases h : t.2 = v <;> simp [coeffOf, List.filter_cons, h]

theorem coeffOf_eq_zero {l : List (ℚ × Var)} {v : Var} (h : ∀ t ∈ l, t.2 ≠ v) :
    coeffOf l v = 0 := by
  have hf : l.filter (fun t => decide (t.2 = v)) = [] := by
    rw [List.filter_eq_nil_iff]
    intro t ht
    simpa using h t ht
  simp [coeffOf, hf]

/-- Inverting a successful run of `multiple_src` into its phases. -/
theorem multiple_src_eq_ok
    {weight : List (Ident × ℚ)} {cust dc : List Ident} {dc_ub : Ident → ℚ}
    {plnt : List Ident} {plnt_ub demand : List ((Ident × Ident) × ℚ)}
    {tp_cost del_cost : Ident → Ident → ℚ} {dc_fc dc_vc : Ident → ℚ} {dc_num : ℚ}
    {m : MIPModel}
    (h : multiple_src weight cust dc dc_ub plnt plnt_ub demand tp_cost del_cost
          dc_fc dc_vc dc_num = .ok m) :
    ∃ dtc cd st pu,
      dcToCust dc cust (weight.map Prod.fst) demand = .ok dtc ∧
      custDemandConsMS dc dtc demand
        (cust.flatMap fun k => (weight.map Prod.fst).map fun p => (k, p)) = .ok cd ∧
      strongConsMS demand dtc = .ok st ∧
      plntUBCons dc (plntToDc plnt dc (weight.map Prod.fst) plnt_ub) plnt_ub
        (plnt.flatMap fun i => (weight.map Prod.fst).map fun p => (i, p)) = .ok pu ∧
      m.constrs = cd
        ++ flowConsMS plnt cust dc (weight.map Prod.fst)
            (plntToDc plnt dc (weight.map Prod.fst) plnt_ub) dtc
        ++ st
        ++ dc.map (mkDCUBConsMS plnt (weight.map Prod.fst)
            (plntToDc plnt dc (weight.map Prod.fst) plnt_ub) dc_ub)
        ++ pu ++ [mkNumCons dc dc_num] ∧
      m.objective = objectiveMS weight cust dc (weight.map Prod.fst)
        (plntToDc plnt dc (weight.map Prod.fst) plnt_ub) dtc tp_cost del_cost
        dc_fc dc_vc demand := by
  simp only [multiple_src] at h
  cases hdtc : dcToCust dc cust (weight.map Prod.fst) demand with
  | error e => rw [hdtc] at h; exact absurd h (by simp [Bind.bind, Except.bind])
  | ok dtc =>
    rw [hdtc] at h
    simp only [Bind.bind, Except.bind] at h
    cases hcd : custDemandConsMS dc dtc demand
        (cust.flatMap fun k => (weight.map Prod.fst).map fun p => (k, p)) with
    | error e => rw [hcd] at h; exact absurd h (by simp)
    | ok cd =>
      rw [hcd] at h
      cases hst : strongConsMS demand dtc with
      | error e => rw [hst] at h; exact absurd h (by simp)
      | ok st =>
        rw [hst] at h
        cases hpu : plntUBCons dc (plntToDc plnt dc (weight.map Prod.fst) plnt_ub)
            plnt_ub (plnt.flatMap fun i => (weight.map Prod.fst).map fun p => (i, p)) with
        | error e => rw [hpu] at h; exact absurd h (by simp)
        | ok pu =>
          rw [hpu] at h
          simp only [pure, Except.pure, Except.ok.injEq] at h
          subst h
          exact ⟨dtc, cd, st, pu, rfl, hcd, hst, rfl, rfl, rfl⟩

/-- Shape of the terms in one customer's slack block of the objective. -/
theorem slackInner_shape {demand : List ((Ident × Ident) × ℚ)} {k2 : Ident}
    {prod : List Ident} {u : ℚ × Var}
    (hu : u ∈ prod.filterMap fun p2 =>
      if demandPosB demand k2 p2 then some ((999999 : ℚ), Var.slack2 k2 p2) else none) :
    ∃ p2 ∈ prod, u = ((999999 : ℚ), Var.slack2 k2 p2) := by
  rcases List.mem_filterMap.mp hu with ⟨p2, hp2, hf⟩
  by_cases hd : demandPosB demand k2 p2
  · rw [if_pos hd] at hf
    exact ⟨p2, hp2, (Option.some.inj hf).symm⟩
  · rw [if_neg hd] at hf
    cases hf

/-- The slack block of `multiple_src`'s objective restricted to one
customer: the coefficient collected for `slack[k,p]`. -/
theorem coeffOf_slackInner {demand : List ((Ident × Ident) × ℚ)} {k : Ident}
    {prod : List Ident} {p : Ident} (hp : prod.Nodup) (hpp : p ∈ prod)
    (hpos : demandPosB demand k p = true) :
    coeffOf (prod.filterMap fun p2 =>
      if demandPosB demand k p2 then some ((999999 : ℚ), Var.slack2 k p2) else none)
      (Var.slack2 k p) = 999999 := by
  induction prod with
  | nil => cases hpp
  | cons p0 t ih =>
    rw [List.nodup_cons] at hp
    rcases List.mem_cons.mp hpp with h0 | hmem
    · subst h0
      have hstep : (List.filterMap (fun p2 =>
          if demandPosB demand k p2 then some ((999999 : ℚ), Var.slack2 k p2) else none)
          (p :: t)) = ((999999 : ℚ), Var.slack2 k p) :: (t.filterMap fun p2 =>
          if demandPosB demand k p2 then some ((999999 : ℚ), Var.slack2 k p2) else none) := by
        simp [List.filterMap_cons, hpos]
      have hz : coeffOf (t.filterMap fun p2 =>
          if demandPosB demand k p2 then some ((999999 : ℚ), Var.slack2 k p2) else none)
          (Var.slack2 k p) = 0 := by
        apply coeffOf_eq_zero
        intro u hu
        obtain ⟨p2, hp2, rfl⟩ := slackInner_shape hu
        simp only [ne_eq, Var.slack2.injEq, not_and]
        intro _ hpe
        exact hp.1 (hpe ▸ hp2)
      rw [hstep, coeffOf_cons, hz]
      norm_num
    · have hne : p0 ≠ p := fun he => hp.1 (he ▸ hmem)
      have hstep := ih hp.2 hmem
      by_cases hd : demandPosB demand k p0
      · have hcons : (List.filterMap (fun p2 =>
            if demandPosB demand k p2 then some ((999999 : ℚ), Var.slack2 k p2) else none)
            (p0 :: t)) = ((999999 : ℚ), Var.slack2 k p0) :: (t.filterMap fun p2 =>
            if demandPosB demand k p2 then some ((999999 : ℚ), Var.slack2 k p2) else none) := by
          simp [List.filterMap_cons, hd]
        rw [hcons, coeffOf_cons]
        simpa [hne] using hstep
      · have hcons : (List.filterMap (fun p2 =>
            if demandPosB demand k p2 then some ((999999 : ℚ), Var.slack2 k p2) else none)
            (p0 :: t)) = t.filterMap fun p2 =>
            if demandPosB demand k p2 then some ((999999 : ℚ), Var.slack2 k p2) else none := by
          simp [List.filterMap_cons, hd]
        rw [hcons]
        exact hstep

/-- The whole slack block of `multiple_src`'s objective: with distinct
customers and products, `slack[k,p]` is collected exactly once. -/
theorem coeffOf_slackTerms {demand : List ((Ident × Ident) × ℚ)}
    {cust prod : List Ident} {k p : Ident} (hc : cust.Nodup) (hp : prod.Nodup)
    (hk : k ∈ cust) (hpp : p ∈ prod) (hpos : demandPosB demand k p = true) :
    coeffOf (cust.flatMap fun k2 => prod.filterMap fun p2 =>
      if demandPosB demand k2 p2 then some ((999999 : ℚ), Var.slack2 k2 p2) else none)
      (Var.slack2 k p) = 999999 := by
  induction cust with
  | nil => cases hk
  | cons k0 t ih =>
    rw [List.nodup_cons] at hc
    rw [List.flatMap_cons, coeffOf_append]
    have hblock : ∀ k2, k2 ≠ k →
        coeffOf (prod.filterMap fun p2 =>
          if demandPosB demand k2 p2 then some ((999999 : ℚ), Var.slack2 k2 p2) else none)
          (Var.slack2 k p) = 0 := by
      intro k2 hne
      apply coeffOf_eq_zero
      intro u hu
      obtain ⟨p2, _, rfl⟩ := slackInner_shape hu
      simp only [ne_eq, Var.slack2.injEq, not_and]
      intro hke
      exact absurd hke hne
    rcases List.mem_cons.mp hk with h0 | hmem
    · subst h0
      have htail : coeffOf (t.flatMap fun k2 => prod.filterMap fun p2 =>
          if demandPosB demand k2 p2 then some ((999999 : ℚ), Var.slack2 k2 p2) else none)
          (Var.slack2 k p) = 0 := by
        apply coeffOf_eq_zero
        intro u hu
        rcases List.mem_flatMap.mp hu with ⟨k2, hk2, hu2⟩
        obtain ⟨p2, _, rfl⟩ := slackInner_shape hu2
        simp only [ne_eq, Var.slack2.injEq, not_and]
        intro hke
        exact absurd (hke ▸ hk2) hc.1
      rw [coeffOf_slackInner hp hpp hpos, htail]
      ring
    · have hne : k0 ≠ k := fun he => hc.1 (he ▸ hmem)
      rw [hblock k0 hne, ih hc.2 hmem]
      ring

/-- In `objectiveMS`, the first four blocks mention only `x` and `y`
variables, so the whole-objective coefficient of a slack variable comes
from the slack block alone. -/
theorem coeffOf_objectiveMS_slack {weight : List (Ident × ℚ)} {cust dc prod : List Ident}
    {ptd dtc : List (Ident × Ident × Ident)} {tp_cost del_cost : Ident → Ident → ℚ}
    {dc_fc dc_vc : Ident → ℚ} {demand : List ((Ident × Ident) × ℚ)} {k p : Ident}
    (hc : cust.Nodup) (hp : prod.Nodup) (hk : k ∈ cust) (hpp : p ∈ prod)
    (hpos : demandPosB demand k p = true) :
    coeffOf (objectiveMS weight cust dc prod ptd dtc tp_cost del_cost dc_fc dc_vc demand)
      (Var.slack2 k p) = 999999 := by
  unfold objectiveMS
  rw [coeffOf_append, coeffOf_append, coeffOf_append, coeffOf_append]
  have h1 : coeffOf (ptd.map fun t =>
      (wt weight t.2.2 * tp_cost t.1 t.2.1, Var.x t.1 t.2.1 t.2.2)) (Var.slack2 k p) = 0 := by
    apply coeffOf_eq_zero
    intro u hu
    rcases List.mem_map.mp hu with ⟨t, _, rfl⟩
    simp
  have h2 : coeffOf (dtc.map fun t =>
      (wt weight t.2.2 * del_cost t.1 t.2.1, Var.x t.1 t.2.1 t.2.2)) (Var.slack2 k p) = 0 := by
    apply coeffOf_eq_zero
    intro u hu
    rcases List.mem_map.mp hu with ⟨t, _, rfl⟩
    simp
  have h3 : coeffOf (dc.map fun j => (dc_fc j, Var.y j)) (Var.slack2 k p) = 0 := by
    apply coeffOf_eq_zero
    intro u hu
    rcases List.mem_map.mp hu with ⟨t, _, rfl⟩
    simp
  have h4 : coeffOf (ptd.map fun t =>
      (dc_vc t.2.1, Var.x t.1 t.2.1 t.2.2)) (Var.slack2 k p) = 0 := by
    apply coeffOf_eq_zero
    intro u hu
    rcases List.mem_map.mp hu with ⟨t, _, rfl⟩
    simp
  rw [h1, h2, h3, h4, coeffOf_slackTerms hc hp hk hpp hpos]
  ring

/-! ### Membership characterizations of the arc sets and phases -/

/-- Members of `plntToDc`: exactly the triples over the input lists whose
plant capacity (with `.get` default 0) is positive. -/
theorem mem_plntToDc {plnt dc prod : List Ident} {plnt_ub : List ((Ident × Ident) × ℚ)}
    {i j p : Ident} :
    (i, j, p) ∈ plntToDc plnt dc prod plnt_ub ↔
      i ∈ plnt ∧ j ∈ dc ∧ p ∈ prod ∧ 0 < (dlookup plnt_ub (i, p)).getD 0 := by
  unfold plntToDc
  simp only [List.mem_flatMap, List.mem_filterMap]
  constructor
  · rintro ⟨i2, hi2, j2, hj2, p2, hp2, hf⟩
    by_cases hc : 0 < (dlookup plnt_ub (i2, p2)).getD 0
    · rw [if_pos hc] at hf
      simp only [Option.some.injEq, Prod.mk.injEq] at hf
      obtain ⟨rfl, rfl, rfl⟩ := hf
      exact ⟨hi2, hj2, hp2, hc⟩
    · rw [if_neg hc] at hf
      cases hf
  · rintro ⟨hi, hj, hp, hc⟩
    exact ⟨i, hi, j, hj, p, hp, by rw [if_pos hc]⟩

/-- Members of `allDcCust`. -/
theorem mem_allDcCust {dc cust prod : List Ident} {j k p : Ident} :
    (j, k, p) ∈ allDcCust dc cust prod ↔ j ∈ dc ∧ k ∈ cust ∧ p ∈ prod := by
  unfold allDcCust
  simp only [List.mem_flatMap, List.mem_map]
  constructor
  · rintro ⟨j2, hj2, k2, hk2, p2, hp2, he⟩
    simp only [Prod.mk.injEq] at he
    obtain ⟨rfl, rfl, rfl⟩ := he
    exact ⟨hj2, hk2, hp2⟩
  · rintro ⟨hj, hk, hp⟩
    exact ⟨j, hj, k, hk, p, hp, rfl⟩

/-- Members of a successful `filterByDemand` run: the kept triples of the
input, i.e. those with a present and positive demand entry. -/
theorem mem_filterByDemand_ok {demand : List ((Ident × Ident) × ℚ)}
    {l r : List (Ident × Ident × Ident)} (h : filterByDemand demand l = .ok r)
    {t : Ident × Ident × Ident} :
    t ∈ r ↔ t ∈ l ∧ ∃ v, dlookup demand (t.2.1, t.2.2) = some v ∧ 0 < v := by
  induction l generalizing r with
  | nil =>
    cases h
    simp
  | cons hd tl ih =>
    obtain ⟨j, k, p⟩ := hd
    unfold filterByDemand at h
    cases hg : pyGet demand (k, p) with
    | error e => rw [hg] at h; exact absurd h (by simp [Bind.bind, Except.bind])
    | ok v =>
      rw [hg] at h
      cases hr : filterByDemand demand tl with
      | error e =>
        rw [hr] at h
        simp only [Bind.bind, Except.bind] at h
        cases h
      | ok r2 =>
        rw [hr] at h
        simp only [Bind.bind, Except.bind] at h
        have hvl : dlookup demand (k, p) = some v := by
          unfold pyGet at hg
          cases hl : dlookup demand (k, p) with
          | none => rw [hl] at hg; cases hg
          | some w => rw [hl] at hg; cases hg; rfl
        by_cases hv : 0 < v
        · rw [if_pos hv] at h
          simp only [pure, Except.pure, Except.ok.injEq] at h
          subst h
          simp only [List.mem_cons, ih hr]
          constructor
          · rintro (rfl | ⟨htl, hw⟩)
            · exact ⟨Or.inl rfl, v, hvl, hv⟩
            · exact ⟨Or.inr htl, hw⟩
          · rintro ⟨rfl | htl, hw⟩
            · exact Or.inl rfl
            · exact Or.inr ⟨htl, hw⟩
        · rw [if_neg hv] at h
          simp only [pure, Except.pure, Except.ok.injEq] at h
          subst h
          rw [ih hr]
          simp only [List.mem_cons]
          constructor
          · rintro ⟨htl, hw⟩
            exact ⟨Or.inr htl, hw⟩
          · rintro ⟨rfl | htl, hw⟩
            · rcases hw with ⟨v2, hv2, hpos2⟩
              rw [hvl] at hv2
              cases hv2
              exact absurd hpos2 hv
            · exact ⟨htl, hw⟩

/-- Members of a successful `dcToCust` run. -/
theorem mem_dcToCust_ok {dc cust prod : List Ident} {demand : List ((Ident × Ident) × ℚ)}
    {dtc : List (Ident × Ident × Ident)} (h : dcToCust dc cust prod demand = .ok dtc)
    {j k p : Ident} :
    (j, k, p) ∈ dtc ↔
      j ∈ dc ∧ k ∈ cust ∧ p ∈ prod ∧ ∃ v, dlookup demand (k, p) = some v ∧ 0 < v := by
  rw [mem_filterByDemand_ok h, mem_allDcCust]
  tauto

theorem mI_ok :
    multiple_src weightI custI dcI dcubI plntI plnt_ubI demandI cost1 cost1 fcI vcI 1 =
      .ok mI := by
  rfl

/-- C3, counterexample: on the concrete instance the multiple-source
builder gives the slack variable slack["C1","Q1"] objective coefficient
999999, which is not 10^6 = 1000000 as the claim states. -/
theorem C3_slack_coeff_counterexample :
    multiple_src weightI custI dcI dcubI plntI plnt_ubI demandI cost1 cost1 fcI vcI 1 =
      .ok mI ∧
    coeffOf mI.objective (Var.slack2 "C1" "Q1") = 999999 ∧
    coeffOf mI.objective (Var.slack2 "C1" "Q1") ≠ 1000000 := by
  have h9 : coeffOf mI.objective (Var.slack2 "C1" "Q1") = 999999 := by
    obtain ⟨dtc, cd, st, pu, -, -, -, -, -, hobj⟩ := multiple_src_eq_ok mI_ok
    rw [hobj]
    exact coeffOf_objectiveMS_slack (by decide) (by decide) (by decide) (by decide)
      (by decide)
  refine ⟨mI_ok, h9, ?_⟩
  rw [h9]
  norm_num

/-- C3 (amended): in the objective of the multiple-source builder, the
coefficient of every slack variable slack[k,p] (for a customer k and
product p with positive demand, under distinct customer and product
identifiers) equals 999999. -/
theorem C3_slack_coeff_amended
    {weight : List (Ident × ℚ)} {cust dc : List Ident} {dc_ub : Ident → ℚ}
    {plnt : List Ident} {plnt_ub demand : List ((Ident × Ident) × ℚ)}
    {tp_cost del_cost : Ident → Ident → ℚ} {dc_fc dc_vc : Ident → ℚ} {dc_num : ℚ}
    {m : MIPModel} {k p : Ident}
    (h : multiple_src weight cust dc dc_ub plnt plnt_ub demand tp_cost del_cost
          dc_fc dc_vc dc_num = .ok m)
    (hc : cust.Nodup) (hp : (weight.map Prod.fst).Nodup)
    (hk : k ∈ cust) (hpp : p ∈ weight.map Prod.fst)
    (hpos : demandPosB demand k p = true) :
    coeffOf m.objective (Var.slack2 k p) = 999999 := by
  obtain ⟨dtc, cd, st, pu, -, -, -, -, -, hobj⟩ := multiple_src_eq_ok h
  rw [hobj]
  exact coeffOf_objectiveMS_slack hc hp hk hpp hpos

/-- C3, witness for the amended theorem: instantiating it on the concrete
instance. -/
theorem C3_slack_coeff_witness :
    coeffOf mI.objective (Var.slack2 "C1" "Q1") = 999999 :=
  C3_slack_coeff_amended mI_ok (by decide) (by decide) (by decide) (by decide) (by decide)

/-! ### Flow conservation (C1) -/

theorem evalAffine_units (a : Var → ℚ) (f : Ident → Var) (l : List Ident) :
    evalAffine a ⟨l.map fun i => ((1 : ℚ), f i), 0⟩ = (l.map fun i => a (f i)).sum := by
  unfold evalAffine
  rw [List.map_map]
  have hc : ((fun t : ℚ × Var => t.1 * a t.2) ∘ fun i => ((1 : ℚ), f i)) =
      fun i => a (f i) := by
    funext i
    simp
  rw [hc, add_zero]

theorem satisfies_mkFlowConsMS {plnt cust : List Ident}
    {ptd dtc : List (Ident × Ident × Ident)} {j p : Ident} (a : Var → ℚ) :
    satisfies a (mkFlowConsMS plnt cust ptd dtc j p) ↔
      ((plnt.filter fun i => decide ((i, j, p) ∈ ptd)).map fun i => a (Var.x i j p)).sum =
      ((cust.filter fun k => decide ((j, k, p) ∈ dtc)).map fun k => a (Var.x j k p)).sum := by
  simp only [satisfies, mkFlowConsMS]
  rw [evalAffine_units, evalAffine_units]

theorem mkFlow_mem_flowConsMS {plnt cust dc prod : List Ident}
    {ptd dtc : List (Ident × Ident × Ident)} {j p : Ident}
    (hj : j ∈ dc) (hp : p ∈ prod) :
    mkFlowConsMS plnt cust ptd dtc j p ∈ flowConsMS plnt cust dc prod ptd dtc := by
  unfold flowConsMS
  exact List.mem_flatMap.mpr ⟨j, hj, List.mem_map.mpr ⟨p, hp, rfl⟩⟩

theorem exists_pos_iff_getD {demand : List ((Ident × Ident) × ℚ)} {k p : Ident} :
    (∃ v, dlookup demand (k, p) = some v ∧ 0 < v) ↔
      0 < (dlookup demand (k, p)).getD 0 := by
  cases hl : dlookup demand (k, p) with
  | none => simp [hl]
  | some w => simp [hl]

/-- On the customers, being a `dc_to_cust` arc for a fixed in-range DC and
product is the same test as having positive demand. -/
theorem filter_dtc_eq_demandPos {dc cust prod : List Ident}
    {demand : List ((Ident × Ident) × ℚ)} {dtc : List (Ident × Ident × Ident)}
    (h : dcToCust dc cust prod demand = .ok dtc) {j p : Ident}
    (hj : j ∈ dc) (hp : p ∈ prod) :
    (cust.filter fun k => decide ((j, k, p) ∈ dtc)) =
      cust.filter fun k => demandPosB demand k p := by
  apply List.filter_congr
  intro k hk
  unfold demandPosB
  rw [decide_eq_decide, mem_dcToCust_ok h]
  constructor
  · rintro ⟨-, -, -, hv⟩
    exact exists_pos_iff_getD.mp hv
  · intro hv
    exact ⟨hj, hk, hp, exists_pos_iff_getD.mpr hv⟩

/-- A successful run of `tripleAccess` returns exactly the mapped
variable terms of its access list. -/
theorem tripleAccess_ok {keys : List (Ident × Ident × Ident)}
    {mk : Ident → Ident → Ident → Var} {l : List (Ident × Ident × Ident)}
    {r : List (ℚ × Var)} (h : tripleAccess keys mk l = .ok r) :
    r = l.map fun t => ((1 : ℚ), mk t.1 t.2.1 t.2.2) := by
  induction l generalizing r with
  | nil => cases h; rfl
  | cons hd tl ih =>
    obtain ⟨a, b, c⟩ := hd
    unfold tripleAccess at h
    by_cases hm : (a, b, c) ∈ keys
    · rw [if_pos hm] at h
      cases hr : tripleAccess keys mk tl with
      | error e =>
        rw [hr] at h
        simp only [Bind.bind, Except.bind] at h
        cases h
      | ok r2 =>
        rw [hr] at h
        simp only [Bind.bind, Except.bind, pure, Except.pure, Except.ok.injEq] at h
        subst h
        rw [ih hr]
        rfl
    · rw [if_neg hm] at h
      cases h

/-- A `multiple_src2` flow iteration that succeeds produces a constraint
whose left-hand side is the plant inflow terms followed by the
DC-to-customer outflow terms. -/
theorem ms2FlowCons_cons_ok {plnt cust : List Ident}
    {ptd dtc : List (Ident × Ident × Ident)} {iLast : Option Ident}
    {j p : Ident} {rest : List (Ident × Ident)} {cs : List Constr}
    (h : ms2FlowCons plnt cust ptd dtc iLast ((j, p) :: rest) = .ok cs) :
    ∃ c cs2, cs = c :: cs2 ∧
      c.lhs.terms = (plnt.map fun i => ((1 : ℚ), Var.xpd i j p))
        ++ (cust.map fun k => ((1 : ℚ), Var.xdc j k p)) := by
  unfold ms2FlowCons at h
  cases h1 : tripleAccess ptd Var.xpd (plnt.map fun i => (i, j, p)) with
  | error e =>
    rw [h1] at h
    simp only [Bind.bind, Except.bind] at h
    cases h
  | ok l1 =>
    rw [h1] at h
    cases h2 : tripleAccess dtc Var.xdc (cust.map fun k => (j, k, p)) with
    | error e =>
      rw [h2] at h
      simp only [Bind.bind, Except.bind] at h
      cases h
    | ok l2 =>
      rw [h2] at h
      cases h3 : ms2FlowRhs ptd iLast cust p with
      | error e =>
        rw [h3] at h
        simp only [Bind.bind, Except.bind] at h
        cases h
      | ok rhs =>
        rw [h3] at h
        cases h4 : ms2FlowCons plnt cust ptd dtc iLast rest with
        | error e =>
          rw [h4] at h
          simp only [Bind.bind, Except.bind] at h
          cases h
        | ok r =>
          rw [h4] at h
          simp only [Bind.bind, Except.bind, pure, Except.pure, Except.ok.injEq] at h
          subst h
          refine ⟨_, r, rfl, ?_⟩
          have e1 := tripleAccess_ok h1
          have e2 := tripleAccess_ok h2
          rw [List.map_map] at e1 e2
          simp only [e1, e2]
          rfl

/-- C1: in the MIP built by the multiple-source builder `multiple_src`,
for every DC j and product p the flow-conservation constraint equates the
total inflow from plants (over eligible `plnt_to_dc` arcs) with the total
outflow to customers with positive demand.  The second builder named
multiple source (`multiple_src2`) instead adds the DC-to-customer flows on
the left-hand side of its flow row, and on a concrete instance its flow
loop raises KeyError, so it does not build this constraint. -/
theorem C1_dc_flow_conservation :
    (∀ (weight : List (Ident × ℚ)) (cust dc : List Ident) (dc_ub : Ident → ℚ)
      (plnt : List Ident) (plnt_ub demand : List ((Ident × Ident) × ℚ))
      (tp_cost del_cost : Ident → Ident → ℚ) (dc_fc dc_vc : Ident → ℚ) (dc_num : ℚ)
      (m : MIPModel) (j p : Ident),
      multiple_src weight cust dc dc_ub plnt plnt_ub demand tp_cost del_cost
        dc_fc dc_vc dc_num = .ok m →
      j ∈ dc → p ∈ weight.map Prod.fst →
      ∃ c ∈ m.constrs, c.cname = nm2 "DC_Flow_Cons" j p ∧ ∀ a : Var → ℚ,
        (satisfies a c ↔
          ((plnt.filter fun i =>
              decide ((i, j, p) ∈ plntToDc plnt dc (weight.map Prod.fst) plnt_ub)).map
            fun i => a (Var.x i j p)).sum =
          ((cust.filter fun k => demandPosB demand k p).map
            fun k => a (Var.x j k p)).sum)) ∧
    (∀ (plnt cust : List Ident) (ptd dtc : List (Ident × Ident × Ident))
      (iLast : Option Ident) (j p : Ident) (rest : List (Ident × Ident))
      (cs : List Constr),
      ms2FlowCons plnt cust ptd dtc iLast ((j, p) :: rest) = .ok cs →
      ∃ c cs2, cs = c :: cs2 ∧
        c.lhs.terms = (plnt.map fun i => ((1 : ℚ), Var.xpd i j p))
          ++ (cust.map fun k => ((1 : ℚ), Var.xdc j k p))) ∧
    multiple_src2 weightI custI dcI dcubI plntI plnt_ubI demandI cost1 cost1 fcI vcI 1 =
      .error .keyError := by
  refine ⟨?_, ?_, rfl⟩
  · intro weight cust dc dc_ub plnt plnt_ub demand tp_cost del_cost dc_fc dc_vc dc_num
      m j p h hj hp
    obtain ⟨dtc, cd, st, pu, hdtc, -, -, -, hcon, -⟩ := multiple_src_eq_ok h
    refine ⟨mkFlowConsMS plnt cust (plntToDc plnt dc (weight.map Prod.fst) plnt_ub)
      dtc j p, ?_, rfl, ?_⟩
    · rw [hcon]
      have hm := @mkFlow_mem_flowConsMS plnt cust dc (weight.map Prod.fst)
        (plntToDc plnt dc (weight.map Prod.fst) plnt_ub) dtc j p hj hp
      simp only [List.mem_append, List.mem_singleton]
      tauto
    · intro a
      rw [satisfies_mkFlowConsMS, filter_dtc_eq_demandPos hdtc hj hp]
  · intro plnt cust ptd dtc iLast j p rest cs h
    exact ms2FlowCons_cons_ok h

/-- C1, witness: the conservation row of the concrete instance's model,
and one in-bounds `multiple_src2` flow iteration showing the outflow terms
on its left-hand side. -/
theorem C1_dc_flow_conservation_witness :
    (∃ c ∈ mI.constrs, c.cname = nm2 "DC_Flow_Cons" "D1" "Q1" ∧ ∀ a : Var → ℚ,
      (satisfies a c ↔
        ((plntI.filter fun i =>
            decide ((i, "D1", "Q1") ∈ plntToDc plntI dcI (weightI.map Prod.fst) plnt_ubI)).map
          fun i => a (Var.x i "D1" "Q1")).sum =
        ((custI.filter fun k => demandPosB demandI k "Q1").map
          fun k => a (Var.x "D1" k "Q1")).sum)) ∧
    (∃ c cs2, csX = c :: cs2 ∧
      c.lhs.terms = ((["P"] : List Ident).map fun i => ((1 : ℚ), Var.xpd i "D" "Q"))
        ++ ((["C"] : List Ident).map fun k => ((1 : ℚ), Var.xdc "D" k "Q"))) := by
  constructor
  · exact C1_dc_flow_conservation.1 weightI custI dcI dcubI plntI plnt_ubI demandI
      cost1 cost1 fcI vcI 1 mI "D1" "Q1" mI_ok (by decide) (by decide)
  · exact C1_dc_flow_conservation.2.1 ["P"] ["C"] ptdX dtcX (some "P") "D" "Q" [] csX rfl

/-! ### Strong activation (C2) -/

/-- A successful strong-activation phase produces exactly one constraint
per `dc_to_cust` arc, of the `mkStrongConsMS` shape. -/
theorem strongConsMS_ok {demand : List ((Ident × Ident) × ℚ)}
    {l : List (Ident × Ident × Ident)} {st : List Constr}
    (h : strongConsMS demand l = .ok st) : st = l.map (mkStrongConsMS demand) := by
  induction l generalizing st with
  | nil => cases h; rfl
  | cons hd tl ih =>
    obtain ⟨j, k, p⟩ := hd
    unfold strongConsMS at h
    cases hg : pyGet demand (k, p) with
    | error e =>
      rw [hg] at h
      simp only [Bind.bind, Except.bind] at h
      cases h
    | ok d =>
      rw [hg] at h
      cases hr : strongConsMS demand tl with
      | error e =>
        rw [hr] at h
        simp only [Bind.bind, Except.bind] at h
        cases h
      | ok st2 =>
        rw [hr] at h
        simp only [Bind.bind, Except.bind, pure, Except.pure, Except.ok.injEq] at h
        subst h
        have hvl : dlookup demand (k, p) = some d := by
          unfold pyGet at hg
          cases hl : dlookup demand (k, p) with
          | none => rw [hl] at hg; cases hg
          | some w => rw [hl] at hg; cases hg; rfl
        rw [ih hr]
        unfold mkStrongConsMS
        simp [hvl]

theorem mentionsY_mkFlowConsMS {plnt cust : List Ident}
    {ptd dtc : List (Ident × Ident × Ident)} {j p : Ident} :
    mentionsY (mkFlowConsMS plnt cust ptd dtc j p) = false := by
  unfold mentionsY varsOf mkFlowConsMS
  rw [List.any_eq_false]
  intro v hv
  simp only [List.map_append, List.map_map, List.mem_append, List.mem_map,
    Function.comp] at hv
  rcases hv with ⟨i, -, rfl⟩ | ⟨k, -, rfl⟩ <;> simp [isYVar]

/-- Customer-demand constraints mention no `y` variable. -/
theorem mentionsY_custDemandConsMS {dc : List Ident}
    {dtc : List (Ident × Ident × Ident)} {demand : List ((Ident × Ident) × ℚ)}
    {l : List (Ident × Ident)} {r : List Constr}
    (h : custDemandConsMS dc dtc demand l = .ok r) :
    ∀ c ∈ r, mentionsY c = false := by
  induction l generalizing r with
  | nil =>
    cases h
    intro c hc
    cases hc
  | cons hd tl ih =>
    obtain ⟨k, p⟩ := hd
    unfold custDemandConsMS at h
    cases hg : pyGet demand (k, p) with
    | error e =>
      rw [hg] at h
      simp only [Bind.bind, Except.bind] at h
      cases h
    | ok d =>
      rw [hg] at h
      cases hr : custDemandConsMS dc dtc demand tl with
      | error e =>
        rw [hr] at h
        simp only [Bind.bind, Except.bind] at h
        cases h
      | ok r2 =>
        rw [hr] at h
        simp only [Bind.bind, Except.bind] at h
        by_cases hv : 0 < d
        · rw [if_pos hv] at h
          simp only [pure, Except.pure, Except.ok.injEq] at h
          subst h
          intro c hc
          rcases List.mem_cons.mp hc with rfl | htl
          · unfold mentionsY varsOf
            rw [List.any_eq_false]
            intro v hv2
            simp only [List.map_append, List.map_map, List.mem_append, List.mem_map,
              Function.comp, List.map_cons, List.map_nil, List.mem_cons,
              List.not_mem_nil, or_false] at hv2
            rcases hv2 with ⟨i, -, rfl⟩ | rfl <;> simp [isYVar]
          · exact ih hr c htl
        · rw [if_neg hv] at h
          simp only [pure, Except.pure, Except.ok.injEq] at h
          subst h
          exact ih hr

/-- Plant-capacity constraints mention no `y` variable. -/
theorem mentionsY_plntUBCons {dc : List Ident}
    {ptd : List (Ident × Ident × Ident)} {plnt_ub : List ((Ident × Ident) × ℚ)}
    {l : List (Ident × Ident)} {r : List Constr}
    (h : plntUBCons dc ptd plnt_ub l = .ok r) :
    ∀ c ∈ r, mentionsY c = false := by
  induction l generalizing r with
  | nil =>
    cases h
    intro c hc
    cases hc
  | cons hd tl ih =>
    obtain ⟨i, p⟩ := hd
    unfold plntUBCons at h
    cases hg : pyGet plnt_ub (i, p) with
    | error e =>
      rw [hg] at h
      simp only [Bind.bind, Except.bind] at h
      cases h
    | ok ub =>
      rw [hg] at h
      cases hr : plntUBCons dc ptd plnt_ub tl with
      | error e =>
        rw [hr] at h
        simp only [Bind.bind, Except.bind] at h
        cases h
      | ok r2 =>
        rw [hr] at h
        simp only [Bind.bind, Except.bind, pure, Except.pure, Except.ok.injEq] at h
        subst h
        intro c hc
        rcases List.mem_cons.mp hc with rfl | htl
        · unfold mentionsY varsOf
          rw [List.any_eq_false]
          intro v hv2
          simp only [List.nil_append, List.map_map, List.mem_map, Function.comp] at hv2
          rcases hv2 with ⟨j, -, rfl⟩
          simp [isYVar]
        · exact ih hr c htl

/-- The DC upper-bound constraint mentions only `y[j]` and plant-arc flow
variables, so under disjoint plant and DC identifier sets it mentions no
`dc_to_cust` flow variable. -/
theorem mentionsDtcX_mkDCUBConsMS {plnt prod dc cust : List Ident}
    {ptd dtc : List (Ident × Ident × Ident)} {demand : List ((Ident × Ident) × ℚ)}
    {dc_ub : Ident → ℚ} {j : Ident}
    (hdtc : dcToCust dc cust prod demand = .ok dtc)
    (hdisj : ∀ i ∈ plnt, i ∉ dc) :
    mentionsDtcX dtc (mkDCUBConsMS plnt prod ptd dc_ub j) = false := by
  unfold mentionsDtcX varsOf mkDCUBConsMS
  rw [List.any_eq_false]
  intro v hv
  simp only [List.map_append, List.map_cons, List.map_nil, List.mem_append,
    List.mem_cons, List.not_mem_nil, or_false, List.mem_map, List.mem_flatMap,
    List.mem_filterMap] at hv
  rcases hv with rfl | ⟨t, ⟨i, hi, p2, hp2, hf⟩, rfl⟩
  · simp [isDtcXVar]
  · by_cases hm : (i, j, p2) ∈ ptd
    · rw [if_pos hm] at hf
      cases hf
      simp only [isDtcXVar, decide_eq_true_iff]
      intro hmem
      have := (mem_dcToCust_ok hdtc).mp hmem
      exact hdisj i hi this.1
    · rw [if_neg hm] at hf
      cases hf

theorem mentionsDtcX_mkNumCons {dc cust prod : List Ident}
    {demand : List ((Ident × Ident) × ℚ)} {dtc : List (Ident × Ident × Ident)}
    {dc_num : ℚ} :
    mentionsDtcX dtc (mkNumCons dc dc_num) = false := by
  unfold mentionsDtcX varsOf mkNumCons
  rw [List.any_eq_false]
  intro v hv
  simp only [List.append_nil, List.map_map, List.mem_map, Function.comp] at hv
  rcases hv with ⟨j, -, rfl⟩
  simp [isDtcXVar]

/-- Every strong activation constraint is a linking constraint. -/
theorem isLinkingB_mkStrongConsMS {demand : List ((Ident × Ident) × ℚ)}
    {dtc : List (Ident × Ident × Ident)} {t : Ident × Ident × Ident} (ht : t ∈ dtc) :
    isLinkingB dtc (mkStrongConsMS demand t) = true := by
  unfold isLinkingB mentionsDtcX mentionsY varsOf mkStrongConsMS
  rw [Bool.and_eq_true, List.any_eq_true, List.any_eq_true]
  constructor
  · refine ⟨Var.x t.1 t.2.1 t.2.2, by simp, ?_⟩
    simp only [isDtcXVar]
    rw [decide_eq_true_iff]
    exact ht
  · exact ⟨Var.y t.1, by simp, rfl⟩

theorem evalAffine_single (a : Var → ℚ) (c : ℚ) (v : Var) :
    evalAffine a ⟨[(c, v)], 0⟩ = c * a v := by
  simp [evalAffine]

/-- C2: the multiple-source builder adds one strong per-arc activation
constraint x[j,k,p] ≤ demand[k,p]·y[j] for every triple (j,k,p) with
positive demand (one disaggregated constraint per `dc_to_cust` arc), and
no other constraint of the model links a DC-to-customer flow variable
with an opening variable `y`. -/
theorem C2_strong_activation
    {weight : List (Ident × ℚ)} {cust dc : List Ident} {dc_ub : Ident → ℚ}
    {plnt : List Ident} {plnt_ub demand : List ((Ident × Ident) × ℚ)}
    {tp_cost del_cost : Ident → Ident → ℚ} {dc_fc dc_vc : Ident → ℚ} {dc_num : ℚ}
    {m : MIPModel}
    (h : multiple_src weight cust dc dc_ub plnt plnt_ub demand tp_cost del_cost
          dc_fc dc_vc dc_num = .ok m)
    (hdisj : ∀ i ∈ plnt, i ∉ dc) :
    ∃ dtc, dcToCust dc cust (weight.map Prod.fst) demand = .ok dtc ∧
      (∀ j k p, (j, k, p) ∈ dtc ↔
        j ∈ dc ∧ k ∈ cust ∧ p ∈ weight.map Prod.fst ∧
          0 < (dlookup demand (k, p)).getD 0) ∧
      m.constrs.filter (isLinkingB dtc) = dtc.map (mkStrongConsMS demand) ∧
      (∀ t ∈ dtc, ∀ a : Var → ℚ,
        satisfies a (mkStrongConsMS demand t) ↔
          a (Var.x t.1 t.2.1 t.2.2) ≤
            (dlookup demand (t.2.1, t.2.2)).getD 0 * a (Var.y t.1)) := by
  obtain ⟨dtc, cd, st, pu, hdtc, hcd, hst, hpu, hcon, -⟩ := multiple_src_eq_ok h
  refine ⟨dtc, hdtc, ?_, ?_, ?_⟩
  · intro j k p
    rw [mem_dcToCust_ok hdtc, exists_pos_iff_getD]
  · rw [hcon, strongConsMS_ok hst]
    rw [List.filter_append, List.filter_append, List.filter_append,
      List.filter_append, List.filter_append]
    have hcd0 : cd.filter (isLinkingB dtc) = [] := by
      rw [List.filter_eq_nil_iff]
      intro c hc
      have hy := mentionsY_custDemandConsMS hcd c hc
      simp [isLinkingB, hy]
    have hfl0 : (flowConsMS plnt cust dc (weight.map Prod.fst)
        (plntToDc plnt dc (weight.map Prod.fst) plnt_ub) dtc).filter
        (isLinkingB dtc) = [] := by
      rw [List.filter_eq_nil_iff]
      intro c hc
      unfold flowConsMS at hc
      rcases List.mem_flatMap.mp hc with ⟨j, -, hcm⟩
      rcases List.mem_map.mp hcm with ⟨p, -, rfl⟩
      simp [isLinkingB, mentionsY_mkFlowConsMS]
    have hstf : (dtc.map (mkStrongConsMS demand)).filter (isLinkingB dtc) =
        dtc.map (mkStrongConsMS demand) := by
      rw [List.filter_eq_self]
      intro c hc
      rcases List.mem_map.mp hc with ⟨t, ht, rfl⟩
      exact isLinkingB_mkStrongConsMS ht
    have hub0 : (dc.map (mkDCUBConsMS plnt (weight.map Prod.fst)
        (plntToDc plnt dc (weight.map Prod.fst) plnt_ub) dc_ub)).filter
        (isLinkingB dtc) = [] := by
      rw [List.filter_eq_nil_iff]
      intro c hc
      rcases List.mem_map.mp hc with ⟨j, -, rfl⟩
      have hx := @mentionsDtcX_mkDCUBConsMS plnt (weight.map Prod.fst) dc cust
        (plntToDc plnt dc (weight.map Prod.fst) plnt_ub) dtc demand dc_ub j
        hdtc hdisj
      simp [isLinkingB, hx]
    have hpu0 : pu.filter (isLinkingB dtc) = [] := by
      rw [List.filter_eq_nil_iff]
      intro c hc
      have hy := mentionsY_plntUBCons hpu c hc
      simp [isLinkingB, hy]
    have hnum0 : ([mkNumCons dc dc_num]).filter (isLinkingB dtc) = [] := by
      rw [List.filter_eq_nil_iff]
      intro c hc
      rcases List.mem_singleton.mp hc with rfl
      have hx := @mentionsDtcX_mkNumCons dc cust (weight.map Prod.fst) demand
        dtc dc_num
      simp [isLinkingB, hx]
    rw [hcd0, hfl0, hstf, hub0, hpu0, hnum0]
    simp
  · intro t ht a
    simp only [satisfies, mkStrongConsMS]
    rw [evalAffine_single, evalAffine_single, one_mul]

/-- C2, witness on the concrete instance. -/
theorem C2_strong_activation_witness :
    ∃ dtc, dcToCust dcI custI (weightI.map Prod.fst) demandI = .ok dtc ∧
      (∀ j k p, (j, k, p) ∈ dtc ↔
        j ∈ dcI ∧ k ∈ custI ∧ p ∈ weightI.map Prod.fst ∧
          0 < (dlookup demandI (k, p)).getD 0) ∧
      mI.constrs.filter (isLinkingB dtc) = dtc.map (mkStrongConsMS demandI) ∧
      (∀ t ∈ dtc, ∀ a : Var → ℚ,
        satisfies a (mkStrongConsMS demandI t) ↔
          a (Var.x t.1 t.2.1 t.2.2) ≤
            (dlookup demandI (t.2.1, t.2.2)).getD 0 * a (Var.y t.1)) :=
  C2_strong_activation mI_ok (by decide)

/-! ### Missing plant-capacity and demand entries (C10) -/

/-- If any triple of the access list has a missing demand entry, the
demand filter raises KeyError. -/
theorem filterByDemand_error_of_missing {demand : List ((Ident × Ident) × ℚ)}
    {l : List (Ident × Ident × Ident)}
    (h : ∃ t ∈ l, dlookup demand (t.2.1, t.2.2) = none) :
    filterByDemand demand l = .error .keyError := by
  induction l with
  | nil =>
    rcases h with ⟨t, ht, -⟩
    cases ht
  | cons hd tl ih =>
    obtain ⟨j, k, p⟩ := hd
    unfold filterByDemand
    cases hl : dlookup demand (k, p) with
    | none =>
      have : pyGet demand (k, p) = (.error .keyError : Except PyErr ℚ) := by
        unfold pyGet
        rw [hl]
      rw [this]
      rfl
    | some v =>
      have hg : pyGet demand (k, p) = (.ok v : Except PyErr ℚ) := by
        unfold pyGet
        rw [hl]
      rw [hg]
      have htl : ∃ t ∈ tl, dlookup demand (t.2.1, t.2.2) = none := by
        rcases h with ⟨t, ht, hmiss⟩
        rcases List.mem_cons.mp ht with rfl | hmem
        · rw [hl] at hmiss
          cases hmiss
        · exact ⟨t, hmem, hmiss⟩
      rw [ih htl]
      rfl

/-- `multiple_src` propagates an arc-construction error unchanged. -/
theorem multiple_src_err_of_dcToCust
    {weight : List (Ident × ℚ)} {cust dc : List Ident} {dc_ub : Ident → ℚ}
    {plnt : List Ident} {plnt_ub demand : List ((Ident × Ident) × ℚ)}
    {tp_cost del_cost : Ident → Ident → ℚ} {dc_fc dc_vc : Ident → ℚ} {dc_num : ℚ}
    {e : PyErr} (h : dcToCust dc cust (weight.map Prod.fst) demand = .error e) :
    multiple_src weight cust dc dc_ub plnt plnt_ub demand tp_cost del_cost
      dc_fc dc_vc dc_num = .error e := by
  simp only [multiple_src]
  rw [h]
  rfl

/-- `single_src` computes the same arc set first (model.py line 193) and
propagates its error unchanged. -/
theorem single_src_err_of_dcToCust
    {weight : List (Ident × ℚ)} {cust dc : List Ident} {dc_ub : Ident → ℚ}
    {plnt : List Ident} {plnt_ub demand : List ((Ident × Ident) × ℚ)}
    {tp_cost del_cost : Ident → Ident → ℚ} {dc_fc dc_vc : Ident → ℚ} {dc_num : ℚ}
    {e : PyErr} (h : dcToCust dc cust (weight.map Prod.fst) demand = .error e) :
    single_src weight cust dc dc_ub plnt plnt_ub demand tp_cost del_cost
      dc_fc dc_vc dc_num = .error e := by
  simp only [single_src]
  rw [h]
  rfl

/-- C10: both MIP builders treat a missing plant-capacity entry as zero —
the plant-to-DC arc is simply elided from `plnt_to_dc`, whose membership
is characterized by `plnt_ub.get((i,p), 0) > 0` — but a missing demand
entry on any (customer, product) pair makes the `dc_to_cust` arc-set
construction raise KeyError (whenever a DC exists so that the generator
runs), which both `multiple_src` and `single_src` propagate. -/
theorem C10_missing_capacity_vs_missing_demand :
    (∀ (plnt dc prod : List Ident) (plnt_ub : List ((Ident × Ident) × ℚ))
      (i j p : Ident),
      ((i, j, p) ∈ plntToDc plnt dc prod plnt_ub ↔
        i ∈ plnt ∧ j ∈ dc ∧ p ∈ prod ∧ 0 < (dlookup plnt_ub (i, p)).getD 0) ∧
      (dlookup plnt_ub (i, p) = none → (i, j, p) ∉ plntToDc plnt dc prod plnt_ub)) ∧
    (∀ (weight : List (Ident × ℚ)) (cust dc : List Ident) (dc_ub : Ident → ℚ)
      (plnt : List Ident) (plnt_ub demand : List ((Ident × Ident) × ℚ))
      (tp_cost del_cost : Ident → Ident → ℚ) (dc_fc dc_vc : Ident → ℚ) (dc_num : ℚ),
      dc ≠ [] →
      (∃ k ∈ cust, ∃ p ∈ weight.map Prod.fst, dlookup demand (k, p) = none) →
      multiple_src weight cust dc dc_ub plnt plnt_ub demand tp_cost del_cost
        dc_fc dc_vc dc_num = .error .keyError ∧
      single_src weight cust dc dc_ub plnt plnt_ub demand tp_cost del_cost
        dc_fc dc_vc dc_num = .error .keyError) := by
  constructor
  · intro plnt dc prod plnt_ub i j p
    refine ⟨mem_plntToDc, ?_⟩
    intro hnone hmem
    have := (mem_plntToDc.mp hmem).2.2.2
    rw [hnone] at this
    simp at this
  · intro weight cust dc dc_ub plnt plnt_ub demand tp_cost del_cost dc_fc dc_vc dc_num
      hdc hmiss
    have herr : dcToCust dc cust (weight.map Prod.fst) demand = .error .keyError := by
      unfold dcToCust
      apply filterByDemand_error_of_missing
      rcases hmiss with ⟨k, hk, p, hp, hnone⟩
      rcases List.exists_mem_of_ne_nil dc hdc with ⟨j, hj⟩
      exact ⟨(j, k, p), mem_allDcCust.mpr ⟨hj, hk, hp⟩, hnone⟩
    exact ⟨multiple_src_err_of_dcToCust herr, single_src_err_of_dcToCust herr⟩

/-- C10, witness: a missing capacity entry elides the arc on the concrete
instance, and erasing the demand dict makes both builders raise
KeyError. -/
theorem C10_missing_entries_witness :
    (("P1", "D1", "Q2") ∉ plntToDc plntI dcI ["Q1", "Q2"] plnt_ubI) ∧
    multiple_src weightI custI dcI dcubI plntI plnt_ubI [] cost1 cost1 fcI vcI 1 =
      .error .keyError ∧
    single_src weightI custI dcI dcubI plntI plnt_ubI [] cost1 cost1 fcI vcI 1 =
      .error .keyError := by
  have hb := C10_missing_capacity_vs_missing_demand.2 weightI custI dcI dcubI plntI
    plnt_ubI [] cost1 cost1 fcI vcI 1 (by decide)
    ⟨"C1", by decide, "Q1", by decide, by decide⟩
  exact ⟨(C10_missing_capacity_vs_missing_demand.1 plntI dcI ["Q1", "Q2"] plnt_ubI
    "P1" "D1" "Q2").2 (by decide), hb.1, hb.2⟩

/-! ### The solver driver (C8, C9) -/

/-- Inverting a successful `solve` run: the result is the filter of the
candidate list by the solver's `y` values, paired with the model the
multiple-source builder produced. -/
theorem solve_eq_ok
    {weight : List (Ident × ℚ)} {cust plnt dcMap : List Ident} {dc_lb dc_ub : Ident → ℚ}
    {demand plnt_ub : List ((Ident × Ident) × ℚ)} {names : List (Ident × String)}
    {tp_cost del_cost : Ident → Ident → ℚ} {dc_fc dc_vc : Ident → ℚ}
    {cluster_dc : List Ident} {dc_num : ℚ} {modelArg : String} {sol : Var → ℚ}
    {dcs : List Ident} {m : MIPModel}
    (h : solve weight cust plnt dcMap dc_lb dc_ub demand plnt_ub names tp_cost
          del_cost dc_fc dc_vc cluster_dc dc_num modelArg sol = .ok (dcs, m)) :
    multiple_src weight cust cluster_dc dc_ub plnt plnt_ub demand tp_cost del_cost
      dc_fc dc_vc dc_num = .ok m ∧
    dcs = cluster_dc.filter fun i => decide ((1 : ℚ) / 2 < sol (Var.y i)) := by
  have hs : solve weight cust plnt dcMap dc_lb dc_ub demand plnt_ub names tp_cost
      del_cost dc_fc dc_vc cluster_dc dc_num modelArg sol =
      (multiple_src weight cust cluster_dc dc_ub plnt plnt_ub demand tp_cost
        del_cost dc_fc dc_vc dc_num) >>= fun mm =>
        pure (cluster_dc.filter fun i => decide ((1 : ℚ) / 2 < sol (Var.y i)), mm) := rfl
  rw [hs] at h
  cases hm : multiple_src weight cust cluster_dc dc_ub plnt plnt_ub demand tp_cost
      del_cost dc_fc dc_vc dc_num with
  | error e =>
    rw [hm] at h
    simp only [Bind.bind, Except.bind] at h
    cases h
  | ok mm =>
    rw [hm] at h
    simp only [Bind.bind, Except.bind, pure, Except.pure, Except.ok.injEq,
      Prod.mk.injEq] at h
    obtain ⟨rfl, rfl⟩ := h
    exact ⟨rfl, rfl⟩

/-- C9: the result of the driver's `solve` is independent of its `model`
argument; `solve` always runs the builder stored under the first key of
its model table, which is the multiple-source builder. -/
theorem C9_solve_ignores_model_argument :
    (∀ (weight : List (Ident × ℚ)) (cust plnt dcMap : List Ident)
      (dc_lb dc_ub : Ident → ℚ) (demand plnt_ub : List ((Ident × Ident) × ℚ))
      (names : List (Ident × String)) (tp_cost del_cost : Ident → Ident → ℚ)
      (dc_fc dc_vc : Ident → ℚ) (cluster_dc : List Ident) (dc_num : ℚ)
      (m1 m2 : String) (sol : Var → ℚ),
      solve weight cust plnt dcMap dc_lb dc_ub demand plnt_ub names tp_cost del_cost
        dc_fc dc_vc cluster_dc dc_num m1 sol =
      solve weight cust plnt dcMap dc_lb dc_ub demand plnt_ub names tp_cost del_cost
        dc_fc dc_vc cluster_dc dc_num m2 sol) ∧
    solveKey = "multiple source" ∧
    dlookup modelsTable solveKey = some multiple_src ∧
    (∀ (weight : List (Ident × ℚ)) (cust plnt dcMap : List Ident)
      (dc_lb dc_ub : Ident → ℚ) (demand plnt_ub : List ((Ident × Ident) × ℚ))
      (names : List (Ident × String)) (tp_cost del_cost : Ident → Ident → ℚ)
      (dc_fc dc_vc : Ident → ℚ) (cluster_dc : List Ident) (dc_num : ℚ)
      (m1 : String) (sol : Var → ℚ),
      solve weight cust plnt dcMap dc_lb dc_ub demand plnt_ub names tp_cost del_cost
        dc_fc dc_vc cluster_dc dc_num m1 sol =
      (multiple_src weight cust cluster_dc dc_ub plnt plnt_ub demand tp_cost
        del_cost dc_fc dc_vc dc_num) >>= fun mm =>
        pure (cluster_dc.filter fun i => decide ((1 : ℚ) / 2 < sol (Var.y i)), mm)) :=
  ⟨fun _ _ _ _ _ _ _ _ _ _ _ _ _ _ _ _ _ _ => rfl, rfl, rfl,
   fun _ _ _ _ _ _ _ _ _ _ _ _ _ _ _ _ _ => rfl⟩

theorem mBA_ok :
    multiple_src weightI custI ["B", "A"] dcubI plntI plnt_ubI demandI cost1 cost1
      fcI vcI 1 = .ok mBA := rfl

/-- The concrete `solve` run behind C8: every candidate passes the
`y > 0.5` test, so the output is the candidate list itself, in its own
order. -/
theorem solveBA_ok :
    solve weightI custI plntI dcI dcubI dcubI demandI plnt_ubI [] cost1 cost1
      fcI vcI ["B", "A"] 1 "multiple source" (fun _ => 1) =
      .ok (["B", "A"], mBA) := by
  have hs : solve weightI custI plntI dcI dcubI dcubI demandI plnt_ubI [] cost1
      cost1 fcI vcI ["B", "A"] 1 "multiple source" (fun _ => 1) =
      (multiple_src weightI custI ["B", "A"] dcubI plntI plnt_ubI demandI cost1
        cost1 fcI vcI 1) >>= fun mm =>
        pure ((["B", "A"] : List Ident).filter fun i =>
          decide ((1 : ℚ) / 2 < (fun _ : Var => (1 : ℚ)) (Var.y i)), mm) := rfl
  rw [hs, mBA_ok]
  have hfil : ((["B", "A"] : List Ident).filter fun i =>
      decide ((1 : ℚ) / 2 < (fun _ : Var => (1 : ℚ)) (Var.y i))) = ["B", "A"] := by
    have hd : (fun i : Ident =>
        decide ((1 : ℚ) / 2 < (fun _ : Var => (1 : ℚ)) (Var.y i))) = fun _ => true := by
      funext i
      rw [decide_eq_true_eq]
      norm_num
    rw [hd, List.filter_true]
  simp only [Bind.bind, Except.bind, hfil, pure, Except.pure]

/-- C8, counterexample: with candidates ["B", "A"] and every y value 1,
`solve` returns the opened DCs as ["B", "A"] — the candidate-list order,
which is not ordered by identifier ("A" < "B" in the identifier order,
yet "B" comes first). -/
theorem C8_opened_dcs_counterexample :
    solve weightI custI plntI dcI dcubI dcubI demandI plnt_ubI [] cost1 cost1
      fcI vcI ["B", "A"] 1 "multiple source" (fun _ => 1) = .ok (["B", "A"], mBA) ∧
    ¬ (["B", "A"] : List Ident).Sorted (· ≤ ·) := by
  refine ⟨solveBA_ok, ?_⟩
  intro hs
  have hle : ("B" : Ident) ≤ "A" := List.rel_of_sorted_cons hs "A" (by simp)
  have hlt : ("A" : String) < "B" := by
    rw [String.lt_iff_toList_lt]
    decide
  exact absurd hlt (by simpa using hle)

/-- C8 (amended): a successful `solve` returns as opened DCs exactly the
candidate DC identifiers j with y[j] > 0.5, listed in the order of the
candidate list `cluster_dc` (a sublist of it), not sorted by
identifier. -/
theorem C8_opened_dcs_amended
    {weight : List (Ident × ℚ)} {cust plnt dcMap : List Ident} {dc_lb dc_ub : Ident → ℚ}
    {demand plnt_ub : List ((Ident × Ident) × ℚ)} {names : List (Ident × String)}
    {tp_cost del_cost : Ident → Ident → ℚ} {dc_fc dc_vc : Ident → ℚ}
    {cluster_dc : List Ident} {dc_num : ℚ} {modelArg : String} {sol : Var → ℚ}
    {dcs : List Ident} {m : MIPModel}
    (h : solve weight cust plnt dcMap dc_lb dc_ub demand plnt_ub names tp_cost
          del_cost dc_fc dc_vc cluster_dc dc_num modelArg sol = .ok (dcs, m)) :
    (∀ j, j ∈ dcs ↔ j ∈ cluster_dc ∧ (1 : ℚ) / 2 < sol (Var.y j)) ∧
    dcs.Sublist cluster_dc := by
  obtain ⟨-, rfl⟩ := solve_eq_ok h
  constructor
  · intro j
    rw [List.mem_filter]
    simp
  · exact List.filter_sublist cluster_dc

/-- C8, witness for the amended theorem on the concrete run. -/
theorem C8_opened_dcs_witness :
    (∀ j, j ∈ (["B", "A"] : List Ident) ↔
      j ∈ (["B", "A"] : List Ident) ∧ (1 : ℚ) / 2 < (fun _ : Var => (1 : ℚ)) (Var.y j)) ∧
    (["B", "A"] : List Ident).Sublist ["B", "A"] :=
  @C8_opened_dcs_amended weightI custI plntI dcI dcubI dcubI demandI plnt_ubI
    [] cost1 cost1 fcI vcI ["B", "A"] 1 "multiple source" (fun _ => 1)
    ["B", "A"] mBA solveBA_ok

/-! ### List index helpers for the pre-clusterer -/

theorem getD_mem {l : List ℤ} {n : ℕ} (h : n < l.length) : l.getD n 0 ∈ l := by
  rw [List.getD_eq_getElem l 0 h]
  exact List.getElem_mem h

theorem getD_set_self {l : List ℤ} {i : ℕ} (h : i < l.length) (v : ℤ) :
    (l.set i v).getD i 0 = v := by
  rw [List.getD_eq_getElem _ 0 (by simpa using h)]
  simp

theorem getD_set_ne {l : List ℤ} {i j : ℕ} (h : i ≠ j) (v : ℤ) :
    (l.set i v).getD j 0 = l.getD j 0 := by
  by_cases hj : j < l.length
  · rw [List.getD_eq_getElem _ 0 (by simpa using hj), List.getD_eq_getElem _ 0 hj]
    exact List.getElem_set_ne h _
  · rw [List.getD_eq_default _ 0 (by simpa using Nat.le_of_not_lt hj),
      List.getD_eq_default _ 0 (Nat.le_of_not_lt hj)]

/-- Positions strictly before the first occurrence of a value hold a
different value. -/
theorem getD_ne_of_lt_indexOf : ∀ (l : List ℤ) (a : ℤ) (j : ℕ),
    j < l.indexOf a → l.getD j 0 ≠ a
  | [], a, j, h => by
    rw [List.indexOf_nil] at h
    exact absurd h (Nat.not_lt_zero j)
  | b :: t, a, j, h => by
    by_cases hb : b = a
    · rw [List.indexOf_cons_eq _ hb] at h
      exact absurd h (Nat.not_lt_zero j)
    · rw [List.indexOf_cons_ne _ hb] at h
      cases j with
      | zero => simpa using hb
      | succ j2 =>
        have := getD_ne_of_lt_indexOf t a j2 (by omega)
        simpa using this

/-- np.argmax returns an in-range index of a maximal value whose earlier
positions are all strictly smaller (first occurrence of the maximum). -/
theorem npArgmax_spec {l : List ℤ} {i : ℕ} (h : npArgmax l = .ok i) :
    i < l.length ∧ (∀ j, j < l.length → l.getD j 0 ≤ l.getD i 0) ∧
      ∀ j, j < i → l.getD j 0 < l.getD i 0 := by
  unfold npArgmax at h
  cases hm : l.max? with
  | none => rw [hm] at h; cases h
  | some m =>
    rw [hm] at h
    cases h
    have : Std.Antisymm (α := ℤ) (· ≤ ·) := ⟨fun h1 h2 => le_antisymm h1 h2⟩
    rw [List.max?_eq_some_iff le_refl max_choice (fun a b c => max_le_iff)] at hm
    obtain ⟨hmem, hle⟩ := hm
    have hidx : l.indexOf m < l.length := List.indexOf_lt_length.mpr hmem
    have hget : l.getD (l.indexOf m) 0 = m := by
      rw [List.getD_eq_getElem l 0 hidx]
      exact List.getElem_indexOf hidx
    refine ⟨hidx, ?_, ?_⟩
    · intro j hj
      rw [hget]
      exact hle _ (getD_mem hj)
    · intro j hj
      rw [hget]
      exact lt_of_le_of_ne (hle _ (getD_mem (lt_trans hj hidx)))
        (getD_ne_of_lt_indexOf l m j hj)

theorem npArgmax_ok_of_ne_nil {l : List ℤ} (h : l ≠ []) :
    ∃ i, npArgmax l = .ok i := by
  unfold npArgmax
  cases hm : l.max? with
  | none => exact absurd (List.max?_eq_none_iff.mp hm) h
  | some m => exact ⟨l.indexOf m, rfl⟩

theorem npArgmin_lt_length {l : List ℤ} {i : ℕ} (h : npArgmin l = .ok i) :
    i < l.length := by
  unfold npArgmin at h
  cases hm : l.min? with
  | none => rw [hm] at h; cases h
  | some m =>
    rw [hm] at h
    cases h
    exact List.indexOf_lt_length.mpr (List.min?_mem min_choice hm)

theorem npArgmin_ok_of_ne_nil {l : List ℤ} (h : l ≠ []) :
    ∃ i, npArgmin l = .ok i := by
  unfold npArgmin
  cases hm : l.min? with
  | none => exact absurd (List.min?_eq_none_iff.mp hm) h
  | some m => exact ⟨l.indexOf m, rfl⟩

theorem npArgmax_error {l : List ℤ} {e : PyErr} (h : npArgmax l = .error e) :
    e = .valueError := by
  unfold npArgmax at h
  cases hm : l.max? with
  | none => rw [hm] at h; cases h; rfl
  | some m => rw [hm] at h; cases h

theorem npArgmin_error {l : List ℤ} {e : PyErr} (h : npArgmin l = .error e) :
    e = .valueError := by
  unfold npArgmin at h
  cases hm : l.min? with
  | none => rw [hm] at h; cases h; rfl
  | some m => rw [hm] at h; cases h

/-! ### Customer demand scores (pre-clusterer) -/

theorem pyGet_ok {α β : Type} [DecidableEq α] {d : List (α × β)} {k : α} {v : β}
    (h : pyGet d k = .ok v) : dlookup d k = some v := by
  unfold pyGet at h
  cases hl : dlookup d k with
  | none => rw [hl] at h; cases h
  | some w => rw [hl] at h; cases h; rfl

/-- A successful `sum(demand[z,p] for p in prods)` computes the spec's
total demand. -/
theorem sumDemandOver_ok_value {demand : List ((Ident × Ident) × ℚ)} {z : Ident}
    {prods : List Ident} {s : ℚ} (h : sumDemandOver demand z prods = .ok s) :
    s = totalDemandSpec demand z prods := by
  induction prods generalizing s with
  | nil =>
    cases h
    simp [totalDemandSpec]
  | cons p t ih =>
    unfold sumDemandOver at h
    cases hg : pyGet demand (z, p) with
    | error e => rw [hg] at h; simp only [Bind.bind, Except.bind] at h; cases h
    | ok v =>
      rw [hg] at h
      cases hr : sumDemandOver demand z t with
      | error e => rw [hr] at h; simp only [Bind.bind, Except.bind] at h; cases h
      | ok s2 =>
        rw [hr] at h
        simp only [Bind.bind, Except.bind, pure, Except.pure, Except.ok.injEq] at h
        subst h
        rw [ih hr]
        simp [totalDemandSpec, pyGet_ok hg]

theorem sumDemandOver_int {demand : List ((Ident × Ident) × ℚ)} {z : Ident}
    {prods : List Ident} {s : ℚ} (h : sumDemandOver demand z prods = .ok s)
    (hint : ∀ kp v, dlookup demand kp = some v → ∃ m : ℤ, v = (m : ℚ)) :
    ∃ m : ℤ, s = (m : ℚ) := by
  induction prods generalizing s with
  | nil =>
    cases h
    exact ⟨0, by simp⟩
  | cons p t ih =>
    unfold sumDemandOver at h
    cases hg : pyGet demand (z, p) with
    | error e => rw [hg] at h; simp only [Bind.bind, Except.bind] at h; cases h
    | ok v =>
      rw [hg] at h
      cases hr : sumDemandOver demand z t with
      | error e => rw [hr] at h; simp only [Bind.bind, Except.bind] at h; cases h
      | ok s2 =>
        rw [hr] at h
        simp only [Bind.bind, Except.bind, pure, Except.pure, Except.ok.injEq] at h
        subst h
        obtain ⟨mv, hmv⟩ := hint _ _ (pyGet_ok hg)
        obtain ⟨ms, hms⟩ := ih hr
        exact ⟨mv + ms, by rw [hmv, hms]; push_cast; ring⟩

theorem sumDemandOver_ok_of_covered {demand : List ((Ident × Ident) × ℚ)} {z : Ident}
    {prods : List Ident} (hcov : ∀ p ∈ prods, (dlookup demand (z, p)).isSome) :
    ∃ s, sumDemandOver demand z prods = .ok s := by
  induction prods with
  | nil => exact ⟨0, rfl⟩
  | cons p t ih =>
    obtain ⟨v, hv⟩ := Option.isSome_iff_exists.mp (hcov p (List.mem_cons_self p t))
    obtain ⟨s2, hs2⟩ := ih fun p2 hp2 => hcov p2 (List.mem_cons_of_mem p hp2)
    refine ⟨v + s2, ?_⟩
    unfold sumDemandOver
    have hg : pyGet demand (z, p) = (.ok v : Except PyErr ℚ) := by
      unfold pyGet
      rw [hv]
    rw [hg, hs2]
    rfl

theorem npIntCast_intCast (m : ℤ) : npIntCast (m : ℚ) = m := by
  unfold npIntCast
  by_cases h : 0 ≤ ((m : ℤ) : ℚ)
  · rw [if_pos h, Int.floor_intCast]
  · rw [if_neg h, Int.ceil_intCast]

theorem npIntCast_add_int (a m : ℤ) : npIntCast ((a : ℚ) + (m : ℚ)) = a + m := by
  rw [show ((a : ℚ) + (m : ℚ)) = ((a + m : ℤ) : ℚ) by push_cast; ring,
    npIntCast_intCast]

theorem custScores_length {km : Loc → Loc → ℚ} {dcL : List (Ident × Loc)}
    {prods : List Ident} {demand : List ((Ident × Ident) × ℚ)}
    {cust : List (Ident × Loc)} {acc r : List ℤ}
    (h : custScores km dcL prods demand cust acc = .ok r) : r.length = acc.length := by
  induction cust generalizing acc r with
  | nil =>
    cases h
    rfl
  | cons hd rest ih =>
    obtain ⟨z, zl⟩ := hd
    unfold custScores at h
    cases h1 : assignedDC km dcL zl with
    | error e => rw [h1] at h; simp only [Bind.bind, Except.bind] at h; cases h
    | ok imin =>
      rw [h1] at h
      cases h2 : sumDemandOver demand z prods with
      | error e => rw [h2] at h; simp only [Bind.bind, Except.bind] at h; cases h
      | ok s =>
        rw [h2] at h
        simp only [Bind.bind, Except.bind] at h
        rw [ih h, List.length_set]

theorem custScores_ok {km : Loc → Loc → ℚ} {dcL : List (Ident × Loc)}
    {prods : List Ident} {demand : List ((Ident × Ident) × ℚ)}
    {cust : List (Ident × Loc)} (hdc : dcL ≠ [])
    (hcov : ∀ c ∈ cust, ∀ p ∈ prods, (dlookup demand (c.1, p)).isSome) :
    ∀ acc, ∃ r, custScores km dcL prods demand cust acc = .ok r := by
  induction cust with
  | nil => exact fun acc => ⟨acc, rfl⟩
  | cons hd rest ih =>
    obtain ⟨z, zl⟩ := hd
    intro acc
    have hne : (dcL.map fun d => npIntCast (km zl d.2 + 1 / 2)) ≠ [] := by
      simpa using hdc
    obtain ⟨imin, h1⟩ := npArgmin_ok_of_ne_nil hne
    obtain ⟨s, h2⟩ := sumDemandOver_ok_of_covered
      (hcov (z, zl) (List.mem_cons_self _ _))
    obtain ⟨r, hr⟩ := ih (fun c hc => hcov c (List.mem_cons_of_mem _ hc))
      (acc.set imin (npIntCast ((acc.getD imin 0 : ℚ) + s)))
    refine ⟨r, ?_⟩
    unfold custScores assignedDC
    rw [h1, h2]
    simp only [Bind.bind, Except.bind]
    exact hr

/-- The scores array the code accumulates agrees with the spec's
aggregated demand score, assuming integer demand values (as the instance
generator produces). -/
theorem custScores_spec {km : Loc → Loc → ℚ} {dcL : List (Ident × Loc)}
    {prods : List Ident} {demand : List ((Ident × Ident) × ℚ)}
    {cust : List (Ident × Loc)} {acc r : List ℤ}
    (h : custScores km dcL prods demand cust acc = .ok r)
    (hint : ∀ kp v, dlookup demand kp = some v → ∃ m : ℤ, v = (m : ℚ))
    (hlen : acc.length = dcL.length) :
    ∀ a, a < dcL.length →
      (r.getD a 0 : ℚ) = (acc.getD a 0 : ℚ) + specScore km dcL prods demand cust a := by
  induction cust generalizing acc r with
  | nil =>
    cases h
    intro a ha
    simp [specScore]
  | cons hd rest ih =>
    obtain ⟨z, zl⟩ := hd
    unfold custScores at h
    cases h1 : assignedDC km dcL zl with
    | error e => rw [h1] at h; simp only [Bind.bind, Except.bind] at h; cases h
    | ok imin =>
      rw [h1] at h
      cases h2 : sumDemandOver demand z prods with
      | error e => rw [h2] at h; simp only [Bind.bind, Except.bind] at h; cases h
      | ok s =>
        rw [h2] at h
        simp only [Bind.bind, Except.bind] at h
        intro a ha
        have himin : imin < dcL.length := by
          have hl := npArgmin_lt_length (show npArgmin
            (dcL.map fun d => npIntCast (km zl d.2 + 1 / 2)) = .ok imin from h1)
          simpa using hl
        have hlen2 : (acc.set imin (npIntCast ((acc.getD imin 0 : ℚ) + s))).length =
            dcL.length := by
          rw [List.length_set, hlen]
        have hrec := ih h hlen2 a ha
        obtain ⟨ms, hms⟩ := sumDemandOver_int h2 hint
        have hsval := sumDemandOver_ok_value h2
        by_cases hia : imin = a
        · subst hia
          have hset : ((acc.set imin (npIntCast ((acc.getD imin 0 : ℚ) + s))).getD
              imin 0) = npIntCast ((acc.getD imin 0 : ℚ) + s) :=
            getD_set_self (by rw [hlen]; exact himin) _
          have hcastv : npIntCast ((acc.getD imin 0 : ℚ) + s) =
              acc.getD imin 0 + ms := by
            rw [hms]
            exact npIntCast_add_int _ _
          have hfil : specScore km dcL prods demand ((z, zl) :: rest) imin =
              totalDemandSpec demand z prods +
                specScore km dcL prods demand rest imin := by
            unfold specScore
            rw [List.filter_cons]
            simp [h1]
          rw [hrec, hset, hcastv, hfil, ← hsval, hms]
          push_cast
          ring
        · have hset : ((acc.set imin (npIntCast ((acc.getD imin 0 : ℚ) + s))).getD
              a 0) = acc.getD a 0 := getD_set_ne hia _
          have hfil : specScore km dcL prods demand ((z, zl) :: rest) a =
              specScore km dcL prods demand rest a := by
            unfold specScore
            rw [List.filter_cons]
            simp [h1, hia]
          rw [hrec, hset, hfil]

/-! ### Cluster selection (pre-clusterer) -/

theorem getD_mem' {α : Type} {l : List α} {n : ℕ} (h : n < l.length) (d : α) :
    l.getD n d ∈ l := by
  rw [List.getD_eq_getElem l d h]
  exact List.getElem_mem h

theorem getD_inj_nodup {l : List Ident} (hn : l.Nodup) {i j : ℕ}
    (hi : i < l.length) (hj : j < l.length) (he : l.getD i "" = l.getD j "") :
    i = j := by
  rw [List.getD_eq_getElem l "" hi, List.getD_eq_getElem l "" hj] at he
  exact hn.getElem_inj_iff.mp he

/-- When every requested cluster label occurs among the sample labels, the
selection loop succeeds (no empty cluster, so no argmax ValueError). -/
theorem clusterSelect_ok {labels : List ℕ} {scores : List ℤ} {cl : List ℕ}
    (hsur : ∀ i ∈ cl, i ∈ labels) :
    ∃ sel, clusterSelect labels scores cl = .ok sel := by
  induction cl with
  | nil => exact ⟨[], rfl⟩
  | cons i rest ih =>
    obtain ⟨sel2, hs2⟩ := ih fun i2 hi2 => hsur i2 (List.mem_cons_of_mem _ hi2)
    have hmem : i ∈ labels := hsur i (List.mem_cons_self _ _)
    obtain ⟨n, hget⟩ := List.mem_iff_get.mp hmem
    have henum : ((n : ℕ), i) ∈ labels.enum := by
      rw [List.mk_mem_enum_iff_get?]
      rw [List.get?_eq_get n.isLt]
      rw [hget]
    have hind : ((n : ℕ)) ∈ (labels.enum.filter fun e => decide (e.2 = i)).map
        Prod.fst := by
      exact List.mem_map.mpr ⟨(n, i), List.mem_filter.mpr ⟨henum, by simp⟩, rfl⟩
    have hne : (((labels.enum.filter fun e => decide (e.2 = i)).map Prod.fst).map
        fun j => scores.getD j 0) ≠ [] := by
      intro hnil
      rw [List.map_eq_nil_iff] at hnil
      rw [hnil] at hind
      cases hind
    obtain ⟨dmax, hmax⟩ := npArgmax_ok_of_ne_nil hne
    refine ⟨((labels.enum.filter fun e => decide (e.2 = i)).map Prod.fst).getD
      dmax 0 :: sel2, ?_⟩
    simp only [clusterSelect]
    rw [hmax]
    simp only [Bind.bind, Except.bind]
    rw [hs2]
    rfl

/-- Shape of a successful selection: one index per requested cluster, each
pointing into the labels array at its own cluster label. -/
theorem clusterSelect_spec {labels : List ℕ} {scores : List ℤ} :
    ∀ {cl sel : List ℕ}, clusterSelect labels scores cl = .ok sel →
      sel.length = cl.length ∧ ∀ n, n < cl.length →
        labels.getD (sel.getD n 0) 0 = cl.getD n 0 ∧ sel.getD n 0 < labels.length := by
  intro cl
  induction cl with
  | nil =>
    intro sel h
    cases h
    exact ⟨rfl, fun n hn => absurd hn (Nat.not_lt_zero n)⟩
  | cons i rest ih =>
    intro sel h
    simp only [clusterSelect] at h
    cases hmax : npArgmax (((labels.enum.filter fun e => decide (e.2 = i)).map
        Prod.fst).map fun j => scores.getD j 0) with
    | error e => rw [hmax] at h; simp only [Bind.bind, Except.bind] at h; cases h
    | ok dmax =>
      rw [hmax] at h
      cases hrec : clusterSelect labels scores rest with
      | error e => rw [hrec] at h; simp only [Bind.bind, Except.bind] at h; cases h
      | ok sel2 =>
        rw [hrec] at h
        simp only [Bind.bind, Except.bind, pure, Except.pure, Except.ok.injEq] at h
        subst h
        obtain ⟨hlen2, hsp2⟩ := ih hrec
        have hdm : dmax < ((labels.enum.filter fun e => decide (e.2 = i)).map
            Prod.fst).length := by
          have := (npArgmax_spec hmax).1
          simpa using this
        have hchosen : ((labels.enum.filter fun e => decide (e.2 = i)).map
            Prod.fst).getD dmax 0 ∈ (labels.enum.filter fun e => decide (e.2 = i)).map
            Prod.fst := getD_mem' hdm 0
        rcases List.mem_map.mp hchosen with ⟨e2, he2, hfst⟩
        have hef := List.mem_filter.mp he2
        have hlab : e2.2 = i := by simpa using hef.2
        have henum := List.mk_mem_enum_iff_get?.mp
          (show (e2.1, e2.2) ∈ labels.enum from hef.1)
        obtain ⟨hn2len, hn2get⟩ := List.get?_eq_some.mp henum
        have hgetD : labels.getD e2.1 0 = i := by
          rw [List.getD_eq_getElem labels 0 hn2len, ← hlab]
          simpa using hn2get
        constructor
        · simp [hlen2]
        · intro n hn
          cases n with
          | zero =>
            simp only [List.getD_cons_zero]
            rw [← hfst]
            exact ⟨hgetD, hn2len⟩
          | succ m =>
            have hm : m < rest.length := by simpa using hn
            simpa using hsp2 m hm

theorem getD_range {n i : ℕ} (h : i < n) : (List.range n).getD i 0 = i := by
  rw [List.getD_eq_getElem _ 0 (by simpa using h)]
  simp

/-- Composing the pre-clusterer pipeline from its successful phases. -/
theorem preclustering_comp {cust dcL : List (Ident × Loc)} {prods : List Ident}
    {demand : List ((Ident × Ident) × ℚ)} {K : ℕ} {km : Loc → Loc → ℚ}
    {labels : List ℕ} {scores : List ℤ} {sel : List ℕ}
    (hsc : custScores km dcL prods demand cust (List.replicate dcL.length 0) =
      .ok scores)
    (hsel : clusterSelect labels scores (List.range K) = .ok sel) :
    preclustering cust dcL prods demand K km (.ok labels) =
      .ok (sel.map fun i => (dcL.map Prod.fst).getD i "") := by
  simp only [preclustering]
  rw [hsc]
  simp only [Bind.bind, Except.bind]
  rw [hsel]
  rfl

/-- C4: for every customer map, DC map, product list and demand map
(covering the customers), and every K with 1 ≤ K ≤ |DCs|, the
pre-clusterer returns exactly K pairwise-distinct DC identifiers drawn
from the input DC map; for K = |DCs| the output is a permutation of the
input DC identifiers.  The external clustering call is abstracted by its
contract: a label in [0, K) for each of the |DCs| samples, every cluster
non-empty. -/
theorem C4_preclusterer_contract {cust dcL : List (Ident × Loc)}
    {prods : List Ident} {demand : List ((Ident × Ident) × ℚ)} {K : ℕ}
    {km : Loc → Loc → ℚ} {labels : List ℕ}
    (hkey : (dcL.map Prod.fst).Nodup)
    (hK1 : 1 ≤ K) (hKN : K ≤ dcL.length)
    (hlab_len : labels.length = dcL.length)
    (hsur : ∀ c, c < K → c ∈ labels)
    (hcov : ∀ c ∈ cust, ∀ p ∈ prods, (dlookup demand (c.1, p)).isSome) :
    ∃ out, preclustering cust dcL prods demand K km (.ok labels) = .ok out ∧
      out.length = K ∧ out.Nodup ∧ (∀ x ∈ out, x ∈ dcL.map Prod.fst) ∧
      (K = dcL.length → out.Perm (dcL.map Prod.fst)) := by
  have hdc : dcL ≠ [] := by
    intro he
    rw [he] at hKN
    simp at hKN
    omega
  obtain ⟨scores, hsc⟩ := @custScores_ok km dcL prods demand cust hdc hcov _
  obtain ⟨sel, hsel⟩ := @clusterSelect_ok labels scores (List.range K)
    (fun i hi => hsur i (List.mem_range.mp hi))
  obtain ⟨hslen, hsp⟩ := clusterSelect_spec hsel
  have hKlen : sel.length = K := by rw [hslen, List.length_range]
  have hval : ∀ x ∈ sel, x < labels.length := by
    intro x hx
    obtain ⟨n, hget⟩ := List.mem_iff_get.mp hx
    have hn := hsp n.val (by rw [List.length_range, ← hKlen]; exact n.isLt)
    have hgx : sel.getD n.val 0 = x := by
      rw [List.getD_eq_getElem sel 0 n.isLt, ← hget]
      rfl
    rw [hgx] at hn
    exact hn.2
  have hselN : sel.Nodup := by
    rw [List.nodup_iff_injective_get]
    intro n1 n2 he
    have h1 := hsp n1.val (by rw [List.length_range, ← hKlen]; exact n1.isLt)
    have h2 := hsp n2.val (by rw [List.length_range, ← hKlen]; exact n2.isLt)
    have hg1 : sel.getD n1.val 0 = sel.get n1 := by
      rw [List.getD_eq_getElem sel 0 n1.isLt]
      rfl
    have hg2 : sel.getD n2.val 0 = sel.get n2 := by
      rw [List.getD_eq_getElem sel 0 n2.isLt]
      rfl
    have hr1 : (List.range K).getD n1.val 0 = n1.val :=
      getD_range (by rw [← hKlen]; exact n1.isLt)
    have hr2 : (List.range K).getD n2.val 0 = n2.val :=
      getD_range (by rw [← hKlen]; exact n2.isLt)
    apply Fin.ext
    calc n1.val = labels.getD (sel.get n1) 0 := by rw [← hg1, h1.1, hr1]
    _ = labels.getD (sel.get n2) 0 := by rw [he]
    _ = n2.val := by rw [← hg2, h2.1, hr2]
  have hkeylen : (dcL.map Prod.fst).length = dcL.length := List.length_map _ _
  refine ⟨_, preclustering_comp hsc hsel, ?_, ?_, ?_, ?_⟩
  · rw [List.length_map, hKlen]
  · apply List.Nodup.map_on ?_ hselN
    intro x hx y hy he
    exact getD_inj_nodup hkey
      (by rw [hkeylen, ← hlab_len]; exact hval x hx)
      (by rw [hkeylen, ← hlab_len]; exact hval y hy) he
  · intro x hx
    rcases List.mem_map.mp hx with ⟨v, hv, rfl⟩
    exact getD_mem' (by rw [hkeylen, ← hlab_len]; exact hval v hv) ""
  · intro hKeq
    have hnodup : (sel.map fun i => (dcL.map Prod.fst).getD i "").Nodup := by
      apply List.Nodup.map_on ?_ hselN
      intro x hx y hy he
      exact getD_inj_nodup hkey
        (by rw [hkeylen, ← hlab_len]; exact hval x hx)
        (by rw [hkeylen, ← hlab_len]; exact hval y hy) he
    have hsub : (sel.map fun i => (dcL.map Prod.fst).getD i "") ⊆
        dcL.map Prod.fst := by
      intro x hx
      rcases List.mem_map.mp hx with ⟨v, hv, rfl⟩
      exact getD_mem' (by rw [hkeylen, ← hlab_len]; exact hval v hv) ""
    apply (List.Nodup.subperm hnodup hsub).perm_of_length_le
    rw [List.length_map sel, hKlen, hkeylen, hKeq]

/-- C4, witness: two DCs, two clusters, a concrete labelling. -/
theorem C4_preclusterer_contract_witness :
    ∃ out, preclustering ([] : List (Ident × Loc))
        [("D1", ((0 : ℚ), (0 : ℚ))), ("D2", (0, 1))] ["Q1"] [] 2 (fun _ _ => 0)
        (.ok [0, 1]) = .ok out ∧
      out.length = 2 ∧ out.Nodup ∧
      (∀ x ∈ out, x ∈ ([("D1", ((0 : ℚ), (0 : ℚ))), ("D2", (0, 1))] :
        List (Ident × Loc)).map Prod.fst) ∧
      (2 = ([("D1", ((0 : ℚ), (0 : ℚ))), ("D2", (0, 1))] :
        List (Ident × Loc)).length →
        out.Perm (([("D1", ((0 : ℚ), (0 : ℚ))), ("D2", (0, 1))] :
          List (Ident × Loc)).map Prod.fst)) :=
  C4_preclusterer_contract (by decide) (by decide) (by decide) (by decide)
    (by intro c hc; interval_cases c <;> decide) (by simp)

/-! ### The K = 1 case of the pre-clusterer (C6) -/

theorem map_getD_range {l : List ℤ} :
    (List.range l.length).map (fun j => l.getD j 0) = l := by
  apply List.ext_getElem (by simp)
  intro n h1 h2
  simp [List.getD_eq_getElem l 0 h2, List.getElem?_eq_getElem h2]

theorem getD_replicate_zero {n b : ℕ} : (List.replicate n (0 : ℤ)).getD b 0 = 0 := by
  by_cases h : b < n
  · rw [List.getD_eq_getElem _ 0 (by simpa using h)]
    simp
  · rw [List.getD_eq_default _ 0 (by simpa using Nat.le_of_not_lt h)]

/-- C6: for K = 1, the pre-clusterer returns a single-element list
containing the DC whose aggregated demand score (sum over customers
assigned to it as their rounded-distance-nearest DC of the customer's
total demand) is maximal, ties broken by the first occurrence in input
iteration order.  Demand values are integers (as the instance generator
produces) and the clustering contract for one cluster labels every sample
0. -/
theorem C6_preclusterer_k1 {cust dcL : List (Ident × Loc)} {prods : List Ident}
    {demand : List ((Ident × Ident) × ℚ)} {km : Loc → Loc → ℚ} {labels : List ℕ}
    (hdc : dcL ≠ [])
    (hlab_len : labels.length = dcL.length)
    (hlab0 : ∀ l ∈ labels, l = 0)
    (hcov : ∀ c ∈ cust, ∀ p ∈ prods, (dlookup demand (c.1, p)).isSome)
    (hint : ∀ kp v, dlookup demand kp = some v → ∃ m : ℤ, v = (m : ℚ)) :
    ∃ scores istar,
      custScores km dcL prods demand cust (List.replicate dcL.length 0) =
        .ok scores ∧
      preclustering cust dcL prods demand 1 km (.ok labels) =
        .ok [(dcL.map Prod.fst).getD istar ""] ∧
      istar < dcL.length ∧
      (∀ b, b < dcL.length →
        specScore km dcL prods demand cust b ≤
          specScore km dcL prods demand cust istar) ∧
      (∀ b, b < istar →
        specScore km dcL prods demand cust b <
          specScore km dcL prods demand cust istar) ∧
      (∀ b, b < dcL.length →
        (scores.getD b 0 : ℚ) = specScore km dcL prods demand cust b) := by
  obtain ⟨scores, hsc⟩ := @custScores_ok km dcL prods demand cust hdc hcov
    (List.replicate dcL.length 0)
  have hsclen : scores.length = dcL.length := by
    rw [custScores_length hsc, List.length_replicate]
  have hspecs : ∀ b, b < dcL.length →
      (scores.getD b 0 : ℚ) = specScore km dcL prods demand cust b := by
    intro b hb
    have := custScores_spec hsc hint (by simp) b hb
    rw [this, getD_replicate_zero]
    simp
  have hlen2 : labels.length = scores.length := by rw [hlab_len, hsclen]
  have hscne : scores ≠ [] := by
    intro he
    rw [he] at hsclen
    exact hdc (List.length_eq_zero.mp hsclen.symm)
  obtain ⟨istar, hargmax⟩ := npArgmax_ok_of_ne_nil hscne
  obtain ⟨histar, hmax, hfirst⟩ := npArgmax_spec hargmax
  have hfil : labels.enum.filter (fun e => decide (e.2 = 0)) = labels.enum := by
    rw [List.filter_eq_self]
    intro e he
    have hmem : e.2 ∈ labels := by
      have := List.mk_mem_enum_iff_get?.mp
        (show (e.1, e.2) ∈ labels.enum from he)
      exact List.get?_mem this
    simp [hlab0 e.2 hmem]
  have hsel : clusterSelect labels scores (List.range 1) = .ok [istar] := by
    rw [show List.range 1 = [0] from rfl]
    simp only [clusterSelect]
    rw [hfil, List.enum_map_fst, hlen2, map_getD_range, hargmax]
    simp only [Bind.bind, Except.bind]
    rw [getD_range histar]
    rfl
  refine ⟨scores, istar, hsc, ?_, by rw [← hsclen]; exact histar, ?_, ?_, hspecs⟩
  · have hc := preclustering_comp hsc hsel
    simpa using hc
  · intro b hb
    rw [← hspecs b hb, ← hspecs istar (by rw [← hsclen]; exact histar)]
    exact_mod_cast hmax b (by rw [hsclen]; exact hb)
  · intro b hb
    have hblt : b < dcL.length := lt_trans hb (by rw [← hsclen]; exact histar)
    rw [← hspecs b hblt, ← hspecs istar (by rw [← hsclen]; exact histar)]
    exact_mod_cast hfirst b hb

/-- C6, witness: two DCs, no customers — all scores 0, the first DC (the
first occurrence of the maximum) is returned. -/
theorem C6_preclusterer_k1_witness :
    ∃ scores istar,
      custScores (fun _ _ => 0) [("D1", ((0 : ℚ), (0 : ℚ))), ("D2", (0, 1))]
        ["Q1"] [] ([] : List (Ident × Loc))
        (List.replicate ([("D1", ((0 : ℚ), (0 : ℚ))), ("D2", (0, 1))] :
          List (Ident × Loc)).length 0) = .ok scores ∧
      preclustering ([] : List (Ident × Loc))
        [("D1", ((0 : ℚ), (0 : ℚ))), ("D2", (0, 1))] ["Q1"] [] 1 (fun _ _ => 0)
        (.ok [0, 0]) =
        .ok [(([("D1", ((0 : ℚ), (0 : ℚ))), ("D2", (0, 1))] :
          List (Ident × Loc)).map Prod.fst).getD istar ""] ∧
      istar < ([("D1", ((0 : ℚ), (0 : ℚ))), ("D2", (0, 1))] :
        List (Ident × Loc)).length ∧
      (∀ b, b < ([("D1", ((0 : ℚ), (0 : ℚ))), ("D2", (0, 1))] :
          List (Ident × Loc)).length →
        specScore (fun _ _ => 0) [("D1", ((0 : ℚ), (0 : ℚ))), ("D2", (0, 1))]
          ["Q1"] [] [] b ≤
        specScore (fun _ _ => 0) [("D1", ((0 : ℚ), (0 : ℚ))), ("D2", (0, 1))]
          ["Q1"] [] [] istar) ∧
      (∀ b, b < istar →
        specScore (fun _ _ => 0) [("D1", ((0 : ℚ), (0 : ℚ))), ("D2", (0, 1))]
          ["Q1"] [] [] b <
        specScore (fun _ _ => 0) [("D1", ((0 : ℚ), (0 : ℚ))), ("D2", (0, 1))]
          ["Q1"] [] [] istar) ∧
      (∀ b, b < ([("D1", ((0 : ℚ), (0 : ℚ))), ("D2", (0, 1))] :
          List (Ident × Loc)).length →
        (scores.getD b 0 : ℚ) =
          specScore (fun _ _ => 0) [("D1", ((0 : ℚ), (0 : ℚ))), ("D2", (0, 1))]
            ["Q1"] [] [] b) :=
  C6_preclusterer_k1 (by decide) (by decide) (by decide) (by simp)
    (by intro kp v h; simp [dlookup] at h)

/-! ### Error behaviour of the pre-clusterer (C7) -/

theorem pyGet_error {α β : Type} [DecidableEq α] {d : List (α × β)} {k : α}
    {e : PyErr} (h : pyGet d k = .error e) : e = .keyError := by
  unfold pyGet at h
  cases hl : dlookup d k with
  | none => rw [hl] at h; cases h; rfl
  | some v => rw [hl] at h; cases h

theorem sumDemandOver_error {demand : List ((Ident × Ident) × ℚ)} {z : Ident}
    {prods : List Ident} {e : PyErr} (h : sumDemandOver demand z prods = .error e) :
    e = .keyError := by
  induction prods generalizing e with
  | nil => cases h
  | cons p t ih =>
    unfold sumDemandOver at h
    cases hg : pyGet demand (z, p) with
    | error e2 =>
      rw [hg] at h
      simp only [Bind.bind, Except.bind] at h
      cases h
      exact pyGet_error hg
    | ok v =>
      rw [hg] at h
      cases hr : sumDemandOver demand z t with
      | error e2 =>
        rw [hr] at h
        simp only [Bind.bind, Except.bind] at h
        cases h
        exact ih hr
      | ok s2 =>
        rw [hr] at h
        simp only [Bind.bind, Except.bind, pure, Except.pure] at h
        cases h

/-- The score loop can only raise KeyError (missing demand) or ValueError
(argmin over an empty distance array). -/
theorem custScores_error {km : Loc → Loc → ℚ} {dcL : List (Ident × Loc)}
    {prods : List Ident} {demand : List ((Ident × Ident) × ℚ)}
    {cust : List (Ident × Loc)} {acc : List ℤ} {e : PyErr}
    (h : custScores km dcL prods demand cust acc = .error e) :
    e = .keyError ∨ e = .valueError := by
  induction cust generalizing acc e with
  | nil => cases h
  | cons hd rest ih =>
    obtain ⟨z, zl⟩ := hd
    unfold custScores at h
    cases h1 : assignedDC km dcL zl with
    | error e2 =>
      rw [h1] at h
      simp only [Bind.bind, Except.bind] at h
      cases h
      exact Or.inr (npArgmin_error h1)
    | ok imin =>
      rw [h1] at h
      cases h2 : sumDemandOver demand z prods with
      | error e2 =>
        rw [h2] at h
        simp only [Bind.bind, Except.bind] at h
        cases h
        exact Or.inl (sumDemandOver_error h2)
      | ok s =>
        rw [h2] at h
        simp only [Bind.bind, Except.bind] at h
        exact ih h

/-- The selection loop can only raise ValueError (argmax over an empty
cluster). -/
theorem clusterSelect_error {labels : List ℕ} {scores : List ℤ} {cl : List ℕ}
    {e : PyErr} (h : clusterSelect labels scores cl = .error e) :
    e = .valueError := by
  induction cl generalizing e with
  | nil => cases h
  | cons i rest ih =>
    simp only [clusterSelect] at h
    cases hmax : npArgmax (((labels.enum.filter fun e2 => decide (e2.2 = i)).map
        Prod.fst).map fun j => scores.getD j 0) with
    | error e2 =>
      rw [hmax] at h
      simp only [Bind.bind, Except.bind] at h
      cases h
      exact npArgmax_error hmax
    | ok dmax =>
      rw [hmax] at h
      cases hrec : clusterSelect labels scores rest with
      | error e2 =>
        rw [hrec] at h
        simp only [Bind.bind, Except.bind] at h
        cases h
        exact ih hrec
      | ok sel2 =>
        rw [hrec] at h
        simp only [Bind.bind, Except.bind, pure, Except.pure] at h
        cases h

/-- C7 (amended): the pre-clusterer performs no input validation on
entry.  The error raised by the external clustering call — for K ≤ 0 or
K > N scikit-learn raises a ValueError — propagates unchanged (after the
distance matrix and score computations), and no run of the pre-clusterer
ever produces the specification's InvalidInput error. -/
theorem C7_no_input_validation {cust dcL : List (Ident × Loc)}
    {prods : List Ident} {demand : List ((Ident × Ident) × ℚ)} {K : ℕ}
    {km : Loc → Loc → ℚ} :
    (∀ (e : PyErr) (scores : List ℤ),
      custScores km dcL prods demand cust (List.replicate dcL.length 0) =
        .ok scores →
      preclustering cust dcL prods demand K km (.error e) = .error e) ∧
    (∀ fitRes : Except PyErr (List ℕ), fitRes ≠ .error .invalidInput →
      preclustering cust dcL prods demand K km fitRes ≠ .error .invalidInput) := by
  constructor
  · intro e scores hsc
    simp only [preclustering]
    rw [hsc]
    rfl
  · intro fitRes hfit hcon
    simp only [preclustering] at hcon
    cases hsc : custScores km dcL prods demand cust (List.replicate dcL.length 0) with
    | error e2 =>
      rw [hsc] at hcon
      have hcon2 : (Except.error e2 : Except PyErr (List Ident)) =
          .error .invalidInput := hcon
      injection hcon2 with he
      rcases custScores_error hsc with rfl | rfl <;> exact PyErr.noConfusion he
    | ok scores =>
      rw [hsc] at hcon
      cases fitRes with
      | error e =>
        have hcon2 : (Except.error e : Except PyErr (List Ident)) =
            .error .invalidInput := hcon
        injection hcon2 with he
        exact hfit (by rw [he])
      | ok labels =>
        cases hcs : clusterSelect labels scores (List.range K) with
        | error e3 =>
          simp only [Bind.bind, Except.bind] at hcon
          rw [hcs] at hcon
          have hcon2 : (Except.error e3 : Except PyErr (List Ident)) =
              .error .invalidInput := hcon
          injection hcon2 with he
          have he3 := clusterSelect_error hcs
          subst he3
          exact PyErr.noConfusion he
        | ok sel =>
          simp only [Bind.bind, Except.bind] at hcon
          rw [hcs] at hcon
          have hcon2 : (Except.ok (sel.map fun i => (dcL.map Prod.fst).getD i "") :
              Except PyErr (List Ident)) = .error .invalidInput := hcon
          cases hcon2

/-- C7, counterexample: a call with K = 0 — squarely in the claimed
failure set — does not fail with InvalidInput; the clustering library's
ValueError propagates instead. -/
theorem C7_no_input_validation_counterexample :
    preclustering ([] : List (Ident × Loc)) [("D1", ((0 : ℚ), (0 : ℚ)))] ["Q1"] []
      0 (fun _ _ => 0) (.error .valueError) = .error .valueError ∧
    (Except.error PyErr.valueError : Except PyErr (List Ident)) ≠
      .error .invalidInput := by
  exact ⟨rfl, by decide⟩

/-- C7, witness for the amended theorem on a concrete call. -/
theorem C7_no_input_validation_witness :
    preclustering ([] : List (Ident × Loc)) [("D2", ((0 : ℚ), (0 : ℚ)))] ["Q1"] []
      0 (fun _ _ => 0) (.error .valueError) = .error .valueError ∧
    preclustering ([] : List (Ident × Loc)) [("D2", ((0 : ℚ), (0 : ℚ)))] ["Q1"] []
      0 (fun _ _ => 0) (.error .valueError) ≠ .error .invalidInput := by
  constructor
  · exact C7_no_input_validation.1 .valueError (List.replicate 1 0) rfl
  · exact C7_no_input_validation.2 (.error .valueError) (by decide)

theorem npIntCast_eq_floor {q : ℚ} (h : 0 ≤ q) : npIntCast q = ⌊q⌋ := by
  unfold npIntCast
  rw [if_pos h]

/-- Inner loop of the distance-matrix construction (`for j in range(i, n)`):
a pointwise characterisation of the row `i` pass, for an arbitrary list of
column indices `L` and arbitrary starting matrix `d`. -/
theorem dist_inner_fold_cell (v : ℕ → ℤ) (i : ℕ) :
    ∀ (L : List ℕ) (d : ℕ × ℕ → ℤ) (a b : ℕ),
    (L.foldl (fun e j =>
        Function.update (Function.update e (i, j) (v j)) (j, i) (v j)) d) (a, b) =
      if a = i ∧ b ∈ L then v b
      else if b = i ∧ a ∈ L then v a
      else d (a, b) := by
  intro L
  induction L with
  | nil => intro d a b; simp
  | cons j L2 ih =>
    intro d a b
    rw [List.foldl_cons, ih]
    by_cases h1 : a = i
    · by_cases h2 : b ∈ L2
      · rw [if_pos ⟨h1, h2⟩, if_pos ⟨h1, List.mem_cons_of_mem j h2⟩]
      · by_cases h3 : b = j
        · rw [if_neg (fun hc : a = i ∧ b ∈ L2 => h2 hc.2),
            if_pos (show a = i ∧ b ∈ j :: L2 from
              ⟨h1, by rw [h3]; exact List.mem_cons_self j L2⟩)]
          by_cases h4 : b = i ∧ a ∈ L2
          · rw [if_pos h4, show a = b by rw [h1, h4.1]]
          · rw [if_neg h4, Function.update_apply]
            by_cases h5 : (a, b) = (j, i)
            · rw [if_pos h5, h3]
            · rw [if_neg h5, Function.update_apply,
                if_pos (show (a, b) = (i, j) by rw [h1, h3]), h3]
        · have hbn : b ∉ j :: L2 := by simp [h3, h2]
          rw [if_neg (fun hc : a = i ∧ b ∈ L2 => h2 hc.2),
            if_neg (fun hc : a = i ∧ b ∈ j :: L2 => hbn hc.2)]
          by_cases h4 : b = i
          · by_cases h5 : a ∈ L2
            · rw [if_pos ⟨h4, h5⟩, if_pos ⟨h4, List.mem_cons_of_mem j h5⟩]
            · by_cases h6 : a = j
              · rw [if_neg (fun hc : b = i ∧ a ∈ L2 => h5 hc.2),
                  if_pos (show b = i ∧ a ∈ j :: L2 from
                    ⟨h4, by rw [h6]; exact List.mem_cons_self j L2⟩),
                  Function.update_apply,
                  if_pos (show (a, b) = (j, i) by rw [h6, h4]), h6]
              · have han : a ∉ j :: L2 := by simp [h6, h5]
                rw [if_neg (fun hc : b = i ∧ a ∈ L2 => h5 hc.2),
                  if_neg (fun hc : b = i ∧ a ∈ j :: L2 => han hc.2),
                  Function.update_apply, Function.update_apply,
                  if_neg (fun hc : (a, b) = (j, i) => h6 (congrArg Prod.fst hc)),
                  if_neg (fun hc : (a, b) = (i, j) => h3 (congrArg Prod.snd hc))]
          · rw [if_neg (fun hc : b = i ∧ a ∈ L2 => h4 hc.1),
              if_neg (fun hc : b = i ∧ a ∈ j :: L2 => h4 hc.1),
              Function.update_apply, Function.update_apply,
              if_neg (fun hc : (a, b) = (j, i) => h4 (congrArg Prod.snd hc)),
              if_neg (fun hc : (a, b) = (i, j) => h3 (congrArg Prod.snd hc))]
    · rw [if_neg (fun hc : a = i ∧ b ∈ L2 => h1 hc.1),
        if_neg (fun hc : a = i ∧ b ∈ j :: L2 => h1 hc.1)]
      by_cases h2 : b = i
      · by_cases h3 : a ∈ L2
        · rw [if_pos ⟨h2, h3⟩, if_pos ⟨h2, List.mem_cons_of_mem j h3⟩]
        · by_cases h4 : a = j
          · rw [if_neg (fun hc : b = i ∧ a ∈ L2 => h3 hc.2),
              if_pos (show b = i ∧ a ∈ j :: L2 from
                ⟨h2, by rw [h4]; exact List.mem_cons_self j L2⟩),
              Function.update_apply,
              if_pos (show (a, b) = (j, i) by rw [h4, h2]), h4]
          · have han : a ∉ j :: L2 := by simp [h4, h3]
            rw [if_neg (fun hc : b = i ∧ a ∈ L2 => h3 hc.2),
              if_neg (fun hc : b = i ∧ a ∈ j :: L2 => han hc.2),
              Function.update_apply, Function.update_apply,
              if_neg (fun hc : (a, b) = (j, i) => h4 (congrArg Prod.fst hc)),
              if_neg (fun hc : (a, b) = (i, j) => h1 (congrArg Prod.fst hc))]
      · rw [if_neg (fun hc : b = i ∧ a ∈ L2 => h2 hc.1),
          if_neg (fun hc : b = i ∧ a ∈ j :: L2 => h2 hc.1),
          Function.update_apply, Function.update_apply,
          if_neg (fun hc : (a, b) = (j, i) => h2 (congrArg Prod.snd hc)),
          if_neg (fun hc : (a, b) = (i, j) => h1 (congrArg Prod.fst hc))]

/-- Outer loop of the distance-matrix construction: after processing rows
`0, …, m-1`, cell `(a, b)` holds the rounded distance when
`min a b < m ≤ n` and `max a b < n`, and is still `0` otherwise. -/
theorem dist_outer_fold_cell (v : ℕ → ℕ → ℤ) (n : ℕ) :
    ∀ (m : ℕ), m ≤ n → ∀ a b,
    ((List.range m).foldl (fun d i => (List.range' i (n - i)).foldl
        (fun e j =>
          Function.update (Function.update e (i, j) (v i j)) (j, i) (v i j)) d)
      (fun _ => (0 : ℤ))) (a, b) =
      if a ≤ b ∧ b < n ∧ a < m then v a b
      else if b < a ∧ a < n ∧ b < m then v b a
      else 0 := by
  intro m
  induction m with
  | zero =>
    intro _ a b
    simp
  | succ m ih =>
    intro hm a b
    rw [List.range_succ, List.foldl_append, List.foldl_cons, List.foldl_nil,
      dist_inner_fold_cell (v m) m (List.range' m (n - m)), ih (Nat.le_of_succ_le hm)]
    have hmem : ∀ c : ℕ, c ∈ List.range' m (n - m) ↔ m ≤ c ∧ c < n := by
      intro c
      rw [List.mem_range'_1, Nat.add_sub_cancel' (Nat.le_of_succ_le hm)]
    by_cases h1 : a = m ∧ b ∈ List.range' m (n - m)
    · obtain ⟨ha, hbm⟩ := h1
      rw [hmem] at hbm
      rw [if_pos (show a = m ∧ b ∈ List.range' m (n - m) from
          ⟨ha, (hmem b).mpr hbm⟩),
        if_pos (show a ≤ b ∧ b < n ∧ a < m + 1 from
          ⟨by omega, hbm.2, by omega⟩),
        ha]
    · rw [if_neg h1]
      by_cases h2 : b = m ∧ a ∈ List.range' m (n - m)
      · obtain ⟨hb, ham⟩ := h2
        rw [hmem] at ham
        rw [if_pos (show b = m ∧ a ∈ List.range' m (n - m) from
          ⟨hb, (hmem a).mpr ham⟩)]
        by_cases h3 : a = b
        · exact absurd ⟨by omega, (hmem b).mpr (by omega)⟩ h1
        · have hba : b < a := by
            rcases Nat.lt_or_ge m a with h | h
            · omega
            · exact absurd ⟨by omega, (hmem b).mpr (by omega)⟩ h1
          rw [if_neg (show ¬(a ≤ b ∧ b < n ∧ a < m + 1) from fun hc => by omega),
            if_pos (show b < a ∧ a < n ∧ b < m + 1 from ⟨hba, ham.2, by omega⟩),
            hb]
      · rw [if_neg h2]
        have hiff1 : (a ≤ b ∧ b < n ∧ a < m + 1) ↔ (a ≤ b ∧ b < n ∧ a < m) := by
          constructor
          · rintro ⟨hab, hbn, ham1⟩
            refine ⟨hab, hbn, ?_⟩
            rcases Nat.lt_succ_iff_lt_or_eq.mp ham1 with h | h
            · exact h
            · subst h
              exact absurd ⟨rfl, (hmem b).mpr ⟨hab, hbn⟩⟩ h1
          · rintro ⟨hab, hbn, ham⟩
            exact ⟨hab, hbn, Nat.lt_succ_of_lt ham⟩
        have hiff2 : (b < a ∧ a < n ∧ b < m + 1) ↔ (b < a ∧ a < n ∧ b < m) := by
          constructor
          · rintro ⟨hba, han, hbm1⟩
            refine ⟨hba, han, ?_⟩
            rcases Nat.lt_succ_iff_lt_or_eq.mp hbm1 with h | h
            · exact h
            · subst h
              exact absurd ⟨rfl, (hmem a).mpr ⟨Nat.le_of_lt hba, han⟩⟩ h2
          · rintro ⟨hba, han, hbm⟩
            exact ⟨hba, han, Nat.lt_succ_of_lt hbm⟩
        rw [show (if a ≤ b ∧ b < n ∧ a < m + 1 then v a b
              else if b < a ∧ a < n ∧ b < m + 1 then v b a else 0) =
            (if a ≤ b ∧ b < n ∧ a < m then v a b
              else if b < a ∧ a < n ∧ b < m then v b a else 0) by
          by_cases hc1 : a ≤ b ∧ b < n ∧ a < m
          · rw [if_pos hc1, if_pos (hiff1.mpr hc1)]
          · rw [if_neg hc1, if_neg (fun hc => hc1 (hiff1.mp hc))]
            by_cases hc2 : b < a ∧ a < n ∧ b < m
            · rw [if_pos hc2, if_pos (hiff2.mpr hc2)]
            · rw [if_neg hc2, if_neg (fun hc => hc2 (hiff2.mp hc))]]

/-- Closed form of one cell of the pre-clusterer's distance matrix. -/
theorem mkDistMatrix_cell (km : Loc → Loc → ℚ) (dcL : List (Ident × Loc))
    (a b : ℕ) :
    mkDistMatrix km dcL (a, b) =
      if a ≤ b ∧ b < dcL.length then
        npIntCast (km (dcLocAt dcL a) (dcLocAt dcL b) + 1 / 2)
      else if b < a ∧ a < dcL.length then
        npIntCast (km (dcLocAt dcL b) (dcLocAt dcL a) + 1 / 2)
      else 0 := by
  have h := dist_outer_fold_cell
    (fun i j => npIntCast (km (dcLocAt dcL i) (dcLocAt dcL j) + 1 / 2))
    dcL.length dcL.length le_rfl a b
  refine Eq.trans (Eq.trans (show mkDistMatrix km dcL (a, b) = _ from rfl) h) ?_
  by_cases h1 : a ≤ b ∧ b < dcL.length
  · rw [if_pos ⟨h1.1, h1.2, lt_of_le_of_lt h1.1 h1.2⟩, if_pos h1]
  · rw [if_neg (fun hc => h1 ⟨hc.1, hc.2.1⟩), if_neg h1]
    by_cases h2 : b < a ∧ a < dcL.length
    · rw [if_pos ⟨h2.1, h2.2, lt_trans h2.1 h2.2⟩, if_pos h2]
    · rw [if_neg (fun hc => h2 ⟨hc.1, hc.2.1⟩), if_neg h2]

/-- C5: for a great-circle distance oracle — symmetric, nonnegative, and
zero from a point to itself — the pre-clusterer's N × N distance matrix
satisfies, for all DC indices a, b < N:
`M[a,b] = ⌊km(dc_a, dc_b) + 1/2⌋` (the float-to-int store truncates toward
zero, which on these nonnegative entries is the floor), `M[a,b] = M[b,a]`,
and `M[a,a] = 0`. -/
theorem C5_distance_matrix (km : Loc → Loc → ℚ) (dcL : List (Ident × Loc))
    (hsym : ∀ u v, km u v = km v u) (hnn : ∀ u v, 0 ≤ km u v)
    (hself : ∀ u, km u u = 0) :
    ∀ a b, a < dcL.length → b < dcL.length →
      mkDistMatrix km dcL (a, b) =
        ⌊km (dcLocAt dcL a) (dcLocAt dcL b) + 1 / 2⌋ ∧
      mkDistMatrix km dcL (a, b) = mkDistMatrix km dcL (b, a) ∧
      mkDistMatrix km dcL (a, a) = 0 := by
  intro a b ha hb
  have hpos : ∀ u v : Loc, (0 : ℚ) ≤ km u v + 1 / 2 := fun u v =>
    le_trans (by norm_num) (add_le_add_right (hnn u v) _)
  have hdiag : ∀ c, c < dcL.length → mkDistMatrix km dcL (c, c) = 0 := by
    intro c hc
    rw [mkDistMatrix_cell, if_pos ⟨le_rfl, hc⟩, hself, zero_add,
      npIntCast_eq_floor (by norm_num)]
    rw [Int.floor_eq_zero_iff]
    constructor <;> norm_num
  refine ⟨?_, ?_, hdiag a ha⟩
  · rw [mkDistMatrix_cell]
    by_cases hab : a ≤ b
    · rw [if_pos ⟨hab, hb⟩, npIntCast_eq_floor (hpos _ _)]
    · rw [if_neg (fun hc => hab hc.1), if_pos ⟨Nat.lt_of_not_le hab, ha⟩,
        npIntCast_eq_floor (hpos _ _), hsym]
  · rw [mkDistMatrix_cell, mkDistMatrix_cell]
    by_cases hab : a ≤ b
    · by_cases hba : b ≤ a
      · rw [if_pos ⟨hab, hb⟩, if_pos ⟨hba, ha⟩,
          le_antisymm hab hba]
      · rw [if_pos ⟨hab, hb⟩, if_neg (fun hc => hba hc.1),
          if_pos ⟨Nat.lt_of_not_le hba, hb⟩]
    · rw [if_neg (fun hc => hab hc.1), if_pos ⟨Nat.lt_of_not_le hab, ha⟩,
        if_pos ⟨Nat.le_of_lt (Nat.lt_of_not_le hab), ha⟩]

/-- C5, witness: a concrete two-DC instance with the one-dimensional
absolute-difference distance. -/
theorem C5_distance_matrix_witness :
    mkDistMatrix (fun u v => |u.1 - v.1|)
        [("D1", ((0 : ℚ), (0 : ℚ))), ("D2", ((3 : ℚ), (0 : ℚ)))] (0, 1) =
      ⌊|(0 : ℚ) - 3| + 1 / 2⌋ ∧
    mkDistMatrix (fun u v => |u.1 - v.1|)
        [("D1", ((0 : ℚ), (0 : ℚ))), ("D2", ((3 : ℚ), (0 : ℚ)))] (0, 1) =
      mkDistMatrix (fun u v => |u.1 - v.1|)
        [("D1", ((0 : ℚ), (0 : ℚ))), ("D2", ((3 : ℚ), (0 : ℚ)))] (1, 0) ∧
    mkDistMatrix (fun u v => |u.1 - v.1|)
        [("D1", ((0 : ℚ), (0 : ℚ))), ("D2", ((3 : ℚ), (0 : ℚ)))] (0, 0) = 0 := by
  have h := C5_distance_matrix (fun u v => |u.1 - v.1|)
    [("D1", ((0 : ℚ), (0 : ℚ))), ("D2", ((3 : ℚ), (0 : ℚ)))]
    (fun u v => abs_sub_comm _ _) (fun u v => abs_nonneg _)
    (fun u => by simp) 0 1 (by decide) (by decide)
  exact ⟨h.1, h.2.1, h.2.2⟩

end LogistiX
